import Mathlib

/-!
# Verification of the kv_engine HashTable (src/engines/ep/src/hash_table.cc)

A shallow embedding of the in-memory hash table of the storage engine:
the data model (StoredValue, bucket chains), the statistics
prologue/epilogue protocol, the find primitives, mutation operations,
resize, warmup insertion and eviction, together with proofs of the
documented invariants and operation contracts.

Machine integers are modelled as `Nat`/`Int`; bucket chains are `List`s
(the source uses an intrusive singly-linked list where each StoredValue
owns its successor, which a `List` models exactly); in-place pointer
updates become positional list updates; C++ exceptions become an
explicit error component of each operation's result.
-/

set_option maxHeartbeats 1000000

deriving instance DecidableEq for Except

namespace KV

/-- Commit-state of a StoredValue (`CommittedState` in the source). -/
inductive CommittedState where
  | committedViaMutation
  | committedViaPrepare
  | pending
  | preparedMaybeVisible
  deriving DecidableEq, Repr

/-- Source of a deletion (`DeleteSource` in the source). -/
inductive DeleteSource where
  | explicitDelete
  | ttl
  deriving DecidableEq, Repr

/-- Eviction policy (`EvictionPolicy` in the source): value-only or full. -/
inductive EvictionPolicy where
  | value
  | full
  deriving DecidableEq, Repr

/-- `WantsDeleted` flag of the find operations. -/
inductive WantsDeleted where
  | yes
  | no
  deriving DecidableEq, Repr

/-- `TrackReference` flag of `findForRead`. -/
inductive TrackReference where
  | yes
  | no
  deriving DecidableEq, Repr

/-- Mutation status codes returned by the HashTable API
(`MutationStatus` in the source). -/
inductive MutationStatus where
  | notFound
  | invalidCas
  | wasClean
  | wasDirty
  | isLocked
  | noMem
  | needBgFetch
  | isPendingSyncWrite
  deriving DecidableEq, Repr

/-- Deletion status codes (`DeletionStatus` in the source). -/
inductive DeletionStatus where
  | success
  | isPendingSyncWrite
  deriving DecidableEq, Repr

/-- C++ exceptions thrown by the HashTable.  `std::invalid_argument`
derives from `std::logic_error` in C++, so both count as logic errors;
`expectsFailed` models a failure of the `Expects(...)` assertion in
`findInner`. -/
inductive HTError where
  | logicError
  | invalidArgument
  | expectsFailed
  deriving DecidableEq, Repr

/-- Both `std::logic_error` and its subclass `std::invalid_argument`
are logic errors. -/
def HTError.isLogicError : HTError → Bool
  | .logicError => true
  | .invalidArgument => true
  | .expectsFailed => false

/-- A document key: opaque bytes plus a collection id.  Equality is
byte-equality of key + collection (spec §3). -/
structure DocKey where
  keyBytes : Nat
  collectionId : Nat
  deriving DecidableEq, Repr

/-- Modelled from the spec: the key carries "a stable 32-bit hash"
(spec §3); the hash implementation itself lives outside this file's
sources, so we model it as a fixed 32-bit function of the key bytes. -/
def DocKey.hash (k : DocKey) : Nat := k.keyBytes % 2 ^ 32

/-- Modelled from the spec: "System item: entry in the reserved
system-collection namespace" (glossary); the reserved system collection
is modelled as collection id 1. -/
def isSystemCollection (c : Nat) : Bool := c == 1

/-- One stored value: payload + metadata record (spec §3).  The value
buffer is represented by its sizes (`valSize`, `uncompressedSize`);
`next` pointers are implicit in the enclosing chain list. -/
structure StoredValue where
  key : DocKey
  cas : Nat
  revSeqno : Nat
  bySeqno : Nat
  flags : Nat
  exptime : Nat
  datatype : Nat
  committed : CommittedState
  deleted : Bool
  deleteSource : DeleteSource
  resident : Bool
  dirty : Bool
  tempItem : Bool
  newCacheItem : Bool
  freqCounter : Nat
  valSize : Nat
  metaSize : Nat
  uncompressedSize : Nat
  deriving DecidableEq, Repr

/-- `StoredValue::hasKey`: byte equality of key + collection. -/
def StoredValue.hasKey (sv : StoredValue) (k : DocKey) : Bool := sv.key == k

/-- `StoredValue::isPending`: the two pending commit-states
({Pending, PreparedMaybeVisible}, spec §3 invariant 2). -/
def StoredValue.isPending (sv : StoredValue) : Bool :=
  sv.committed == .pending || sv.committed == .preparedMaybeVisible

/-- `StoredValue::isPreparedMaybeVisible`. -/
def StoredValue.isPreparedMaybeVisible (sv : StoredValue) : Bool :=
  sv.committed == .preparedMaybeVisible

/-- `StoredValue::isCommitted`: not pending. -/
def StoredValue.isCommitted (sv : StoredValue) : Bool := !sv.isPending

/-- `StoredValue::size()`: total in-memory footprint, modelled as
metadata size plus value size. -/
def StoredValue.size (sv : StoredValue) : Nat := sv.metaSize + sv.valSize

/-- `StoredValue::isResident`. -/
def StoredValue.isResident (sv : StoredValue) : Bool := sv.resident

/-- `StoredValue::isDeleted`. -/
def StoredValue.isDeleted (sv : StoredValue) : Bool := sv.deleted

/-- `StoredValue::isTempItem`: temp-nonexistent or temp-deleted
placeholder used while a bgfetch is in flight (spec §3). -/
def StoredValue.isTempItem (sv : StoredValue) : Bool := sv.tempItem

/-- `StoredValue::isDirty`. -/
def StoredValue.isDirty (sv : StoredValue) : Bool := sv.dirty

/-- An input/output record handed to the HashTable (spec §6): key,
value, cas, rev_seqno, flags, exptime, datatype, commit state, deleted
flag. -/
structure Item where
  key : DocKey
  cas : Nat
  revSeqno : Nat
  bySeqno : Nat
  flags : Nat
  exptime : Nat
  datatype : Nat
  committed : CommittedState
  deleted : Bool
  deleteSource : DeleteSource
  valSize : Nat
  metaSize : Nat
  uncompressedSize : Nat
  deriving DecidableEq, Repr

/-- `Item::isPending`. -/
def Item.isPending (itm : Item) : Bool :=
  itm.committed == .pending || itm.committed == .preparedMaybeVisible

/-- `Item::isCommitted`. -/
def Item.isCommitted (itm : Item) : Bool := !itm.isPending

/-- Modelled from the spec: the StoredValueFactory allocates a
StoredValue from an Item, `(item, next) -> owned StoredValue` (spec §6);
the new value starts resident and dirty, with a fresh frequency counter. -/
def mkStoredValue (itm : Item) : StoredValue :=
  { key := itm.key
    cas := itm.cas
    revSeqno := itm.revSeqno
    bySeqno := itm.bySeqno
    flags := itm.flags
    exptime := itm.exptime
    datatype := itm.datatype
    committed := itm.committed
    deleted := itm.deleted
    deleteSource := itm.deleteSource
    resident := true
    dirty := true
    tempItem := false
    newCacheItem := true
    freqCounter := 0
    valSize := itm.valSize
    metaSize := itm.metaSize
    uncompressedSize := itm.uncompressedSize }

/-! ## Statistics: the prologue/epilogue protocol
(`HashTable::Statistics`, hash_table.cc lines 401-511). -/

/-- `HashTable::Statistics::StoredValueProperties`: snapshot of the
properties of a StoredValue that the statistics track.  Default
constructed (all false / zero) for a null pointer. -/
structure StoredValueProperties where
  isValid : Bool := false
  size : Nat := 0
  metaDataSize : Nat := 0
  datatype : Nat := 0
  uncompressedSize : Nat := 0
  isResident : Bool := false
  isDeleted : Bool := false
  isTempItem : Bool := false
  isSystemItem : Bool := false
  isPreparedSyncWrite : Bool := false
  deriving DecidableEq, Repr

/-- Construct `StoredValueProperties` from an optional StoredValue:
a null pointer yields the default-constructed snapshot. -/
def svProperties : Option StoredValue → StoredValueProperties
  | none => {}
  | some sv =>
      { isValid := true
        size := sv.size
        metaDataSize := sv.metaSize
        datatype := sv.datatype
        uncompressedSize := sv.uncompressedSize
        isResident := sv.isResident
        isDeleted := sv.isDeleted
        isTempItem := sv.isTempItem
        isSystemItem := isSystemCollection sv.key.collectionId
        isPreparedSyncWrite := sv.isPending }

/-- The per-HashTable statistics counters (`HashTable::Statistics`).
The C++ counters are atomics updated with `fetch_add` of a (possibly
negative, wrapping) difference; since the counters always represent
small signed magnitudes we model them as `Int`.  `datatypeCounts` is an
array indexed by datatype. -/
structure Statistics where
  cacheSize : Int := 0
  memSize : Int := 0
  metaDataMemory : Int := 0
  uncompressedMemSize : Int := 0
  numNonResidentItems : Int := 0
  numTempItems : Int := 0
  numItems : Int := 0
  numSystemItems : Int := 0
  numPreparedSyncWrites : Int := 0
  numDeletedItems : Int := 0
  datatypeCounts : Nat → Int := fun _ => 0

/-- Convert a `Bool` subtraction `post - pre` as C++ does when adding a
difference of two bools to a counter. -/
def boolDelta (post pre : Bool) : Int := (if post then 1 else 0) - (if pre then 1 else 0)

/-- `HashTable::Statistics::prologue`: snapshot before the mutation. -/
def Statistics.prologue (v : Option StoredValue) : StoredValueProperties :=
  svProperties v

/-- `HashTable::Statistics::epilogue` (hash_table.cc lines 426-501):
snapshot again after the mutation and apply the signed delta of every
tracked category. -/
def Statistics.epilogue (s : Statistics) (pre : StoredValueProperties)
    (v : Option StoredValue) : Statistics :=
  let post := svProperties v
  -- Update size & uncompressed size if pre/post differ.
  let s := if pre.size ≠ post.size then
      { s with cacheSize := s.cacheSize + ((post.size : Int) - (pre.size : Int)),
               memSize := s.memSize + ((post.size : Int) - (pre.size : Int)) }
    else s
  let s := if pre.metaDataSize ≠ post.metaDataSize then
      { s with metaDataMemory :=
          s.metaDataMemory + ((post.metaDataSize : Int) - (pre.metaDataSize : Int)) }
    else s
  let s := if pre.uncompressedSize ≠ post.uncompressedSize then
      { s with uncompressedMemSize :=
          s.uncompressedMemSize + ((post.uncompressedSize : Int) - (pre.uncompressedSize : Int)) }
    else s
  -- Determine if valid, non resident; and update numNonResidentItems if differ.
  let preNonResident := pre.isValid && (!pre.isResident && !pre.isDeleted && !pre.isTempItem)
  let postNonResident := post.isValid && (!post.isResident && !post.isDeleted && !post.isTempItem)
  let s := if preNonResident ≠ postNonResident then
      { s with numNonResidentItems :=
          s.numNonResidentItems + boolDelta postNonResident preNonResident }
    else s
  let s := if pre.isTempItem ≠ post.isTempItem then
      { s with numTempItems := s.numTempItems + boolDelta post.isTempItem pre.isTempItem }
    else s
  -- numItems only considers valid, non-temporary items.
  let preNonTemp := pre.isValid && !pre.isTempItem
  let postNonTemp := post.isValid && !post.isTempItem
  let s := if preNonTemp ≠ postNonTemp then
      { s with numItems := s.numItems + boolDelta postNonTemp preNonTemp }
    else s
  let s := if pre.isSystemItem ≠ post.isSystemItem then
      { s with numSystemItems := s.numSystemItems + boolDelta post.isSystemItem pre.isSystemItem }
    else s
  -- numPreparedItems counts valid, prepared (not yet committed) items.
  let prePrepared := pre.isValid && pre.isPreparedSyncWrite
  let postPrepared := post.isValid && post.isPreparedSyncWrite
  let s := if prePrepared ≠ postPrepared then
      { s with numPreparedSyncWrites :=
          s.numPreparedSyncWrites + boolDelta postPrepared prePrepared }
    else s
  -- Neither system items nor prepared items are counted as deleted.
  let preDeleted := pre.isDeleted && !pre.isSystemItem && !pre.isPreparedSyncWrite
  let postDeleted := post.isDeleted && !post.isSystemItem && !post.isPreparedSyncWrite
  let s := if preDeleted ≠ postDeleted then
      { s with numDeletedItems := s.numDeletedItems + boolDelta postDeleted preDeleted }
    else s
  -- Datatypes are only tracked for non-temp, non-deleted, committed items.
  let s := if preNonTemp && !pre.isDeleted && !pre.isPreparedSyncWrite then
      { s with datatypeCounts := fun d =>
          if d = pre.datatype then s.datatypeCounts d - 1 else s.datatypeCounts d }
    else s
  let s := if postNonTemp && !post.isDeleted && !post.isPreparedSyncWrite then
      { s with datatypeCounts := fun d =>
          if d = post.datatype then s.datatypeCounts d + 1 else s.datatypeCounts d }
    else s
  s

/-! ## The HashTable state and find primitives -/

/-- The hash table (`HashTable` in the source): a vector of bucket
chains plus counters.  The stripe mutexes, the EPStats global
aggregates and the trace hooks are concurrency / observability
machinery with no effect on the table contents and are not modelled. -/
structure HashTable where
  initialSize : Nat
  size : Nat
  values : List (List StoredValue)
  activeState : Bool
  visitors : Nat
  numResizes : Nat
  numEjects : Nat
  numFailedEjects : Nat
  numValueEjects : Nat
  maxDeletedRevSeqno : Nat
  valueStats : Statistics

/-- The freshly-constructed HashTable (`HashTable::HashTable`):
`values.resize(size)` produces `initialSize` empty chains and the table
starts active. -/
def HashTable.init (initialSize : Nat) : HashTable :=
  { initialSize := initialSize
    size := initialSize
    values := List.replicate initialSize []
    activeState := true
    visitors := 0
    numResizes := 0
    numEjects := 0
    numFailedEjects := 0
    numValueEjects := 0
    maxDeletedRevSeqno := 0
    valueStats := {} }

/-- `getBucketForHash` (declared in the header; spec §4.1):
`b = h mod size`. -/
def HashTable.getBucketForHash (ht : HashTable) (h : Nat) : Nat := h % ht.size

/-- The bucket index computed by `getLockedBucket(key)` (spec §4.1). -/
def HashTable.getLockedBucket (ht : HashTable) (k : DocKey) : Nat :=
  ht.getBucketForHash k.hash

/-- The chain stored in bucket `b`. -/
def HashTable.chainAt (ht : HashTable) (b : Nat) : List StoredValue :=
  ht.values.getD b []

/-- Replace the chain stored in bucket `b`. -/
def HashTable.setChain (ht : HashTable) (b : Nat) (c : List StoredValue) : HashTable :=
  { ht with values := ht.values.set b c }

/-- The scan loop of `HashTable::findInner` (hash_table.cc lines
286-297) over one bucket chain: finds the committed and the pending
entry with the given key, returning their positions in the chain.  The
`Expects(!found...)` assertions are modelled as the `expectsFailed`
error. -/
def scanChainGo (k : DocKey) (i : Nat) (cmt pend : Option Nat) :
    List StoredValue → Except HTError (Option Nat × Option Nat)
  | [] => .ok (cmt, pend)
  | v :: rest =>
      if v.hasKey k then
        if v.isPending then
          if pend.isSome then .error .expectsFailed
          else scanChainGo k (i + 1) cmt (some i) rest
        else
          if cmt.isSome then .error .expectsFailed
          else scanChainGo k (i + 1) (some i) pend rest
      else scanChainGo k (i + 1) cmt pend rest

/-- Scan a whole chain from its head. -/
def scanChain (k : DocKey) (c : List StoredValue) : Except HTError (Option Nat × Option Nat) :=
  scanChainGo k 0 none none c

/-- `HashTable::findInner`: logic error when inactive, otherwise scan
the locked bucket's chain.  Returns the bucket index together with the
positions of the committed and pending entries. -/
def HashTable.findInner (ht : HashTable) (k : DocKey) :
    Except HTError (Nat × Option Nat × Option Nat) :=
  if !ht.activeState then .error .logicError
  else
    match scanChain k (ht.chainAt (ht.getLockedBucket k)) with
    | .error e => .error e
    | .ok (cmt, pend) => .ok (ht.getLockedBucket k, cmt, pend)

/-- Modelled from the spec: `ProbabilisticCounter::generateValue`
"with probability `1/(1 + inc_factor·c)` return `c+1`, else `c`"
(spec §4.9); the random draw is made explicit as the boolean `coin`,
and the 8-bit counter saturates at 255. -/
def generateFreqValue (coin : Bool) (counter : Nat) : Nat :=
  if coin && counter < 255 then counter + 1 else counter

/-- `HashTable::updateFreqCounter`: probabilistically increment the
stored value's frequency counter (the saturation callback only wakes a
background task and is not modelled). -/
def updateFreqCounter (coin : Bool) (sv : StoredValue) : StoredValue :=
  { sv with freqCounter := generateFreqValue coin sv.freqCounter }

/-- `HashTable::findForRead` (hash_table.cc lines 580-616).  Returns
the possibly-updated table (the frequency counter of the found value
may change) and the StoredValue the caller receives (`none` models the
null pointer).  A `PreparedMaybeVisible` pending entry is returned as
the signal that reads are blocked. -/
def HashTable.findForRead (ht : HashTable) (k : DocKey) (trackReference : TrackReference)
    (wantsDeleted : WantsDeleted) (coin : Bool) :
    HashTable × Except HTError (Option StoredValue) :=
  match ht.findInner k with
  | .error e => (ht, .error e)
  | .ok (b, cmtIdx, pendIdx) =>
      let chain := ht.chainAt b
      let pendingSV := pendIdx.bind fun i => chain[i]?
      if (pendingSV.map StoredValue.isPreparedMaybeVisible).getD false then
        -- Return the pending one as an indication the caller cannot read it.
        (ht, .ok pendingSV)
      else
        match cmtIdx with
        | none => (ht, .ok none)
        | some j =>
            match chain[j]? with
            | none => (ht, .ok none) -- dead branch: scan positions are in range
            | some sv =>
                if sv.isDeleted then
                  -- Deleted items are only returned when asked for; no
                  -- ref-count update for them.
                  (ht, .ok (if wantsDeleted == WantsDeleted.yes then some sv else none))
                else if trackReference == TrackReference.yes then
                  let sv2 := updateFreqCounter coin sv
                  (ht.setChain b (chain.set j sv2), .ok (some sv2))
                else (ht, .ok (some sv))

/-- `HashTable::findForWrite` (hash_table.cc lines 618-644), returning
the position (within the locked bucket's chain) of the value a writer
operates on: the pending entry is preferred and always returned; a
deleted committed entry is hidden unless `wantsDeleted`. -/
def HashTable.findForWrite (ht : HashTable) (k : DocKey) (wantsDeleted : WantsDeleted) :
    Except HTError (Option Nat) :=
  match ht.findInner k with
  | .error e => .error e
  | .ok (b, cmtIdx, pendIdx) =>
      match pendIdx with
      | some j => .ok (some j)
      | none =>
          match cmtIdx with
          | none => .ok none
          | some j =>
              match (ht.chainAt b)[j]? with
              | none => .ok none -- dead branch: scan positions are in range
              | some sv =>
                  if sv.isDeleted && wantsDeleted == WantsDeleted.no then .ok none
                  else .ok (some j)

/-! ## Mutation operations -/

/-- `HashTable::unlocked_addNewStoredValue` (hash_table.cc lines
376-399): factory-allocate a StoredValue from the item and link it at
the head of the bucket chain, with a stats epilogue from empty.  When
inactive the source throws `std::invalid_argument` (a subclass of
`std::logic_error`).  The bucket-lock-held precondition is implicit in
the model. -/
def HashTable.unlocked_addNewStoredValue (ht : HashTable) (b : Nat) (itm : Item) :
    HashTable × Except HTError StoredValue :=
  if !ht.activeState then (ht, .error .invalidArgument)
  else
    let pre := Statistics.prologue none
    let v := mkStoredValue itm
    let stats := ht.valueStats.epilogue pre (some v)
    ({ ht.setChain b (v :: ht.chainAt b) with valueStats := stats }, .ok v)

/-- Modelled from the spec: `StoredValue::setValue` "replaces the value
in place ... which clears `deleted` if required" (spec §4.4): the value
buffer and all item-carried metadata (including the commit state and
the deleted flag) are taken from the item; the entry becomes resident
and dirty; a temp placeholder becomes a real entry.  The key is
unchanged. -/
def StoredValue.setValue (sv : StoredValue) (itm : Item) : StoredValue :=
  { sv with
    cas := itm.cas
    revSeqno := itm.revSeqno
    bySeqno := itm.bySeqno
    flags := itm.flags
    exptime := itm.exptime
    datatype := itm.datatype
    committed := itm.committed
    deleted := itm.deleted
    deleteSource := itm.deleteSource
    resident := true
    dirty := true
    tempItem := false
    valSize := itm.valSize
    metaSize := itm.metaSize
    uncompressedSize := itm.uncompressedSize }

/-- `HashTable::unlocked_updateStoredValue` (hash_table.cc lines
329-374) acting on the value at position `j` of bucket `b` (the C++
takes the value by reference; position in the chain models pointer
identity).  Returns the new table and `(status, new or updated value)`. -/
def HashTable.unlocked_updateStoredValue (ht : HashTable) (b j : Nat) (itm : Item)
    (coin : Bool) : HashTable × Except HTError (MutationStatus × Option StoredValue) :=
  if !ht.activeState then (ht, .error .logicError)
  else
    match (ht.chainAt b)[j]? with
    | none => (ht, .error .invalidArgument) -- a dangling reference; unreachable under the call contract
    | some v =>
        match v.committed with
        | .pending | .preparedMaybeVisible =>
            -- Cannot update a SV if it is a Pending item.
            (ht, .ok (.isPendingSyncWrite, none))
        | .committedViaMutation | .committedViaPrepare =>
            if itm.isPending then
              -- A pending Item updating a committed SV is implemented as a
              -- separate (new) StoredValue for the Pending item.
              let r := ht.unlocked_addNewStoredValue b itm
              match r.2 with
              | .error e => (r.1, .error e)
              | .ok sv => (r.1, .ok (.wasClean, some sv))
            else
              let status := if v.isDirty then MutationStatus.wasDirty
                            else MutationStatus.wasClean
              let pre := Statistics.prologue (some v)
              -- setValue() marks v as undeleted if required.
              let v2 := updateFreqCounter coin (v.setValue itm)
              let stats := ht.valueStats.epilogue pre (some v2)
              ({ ht.setChain b ((ht.chainAt b).set j v2) with valueStats := stats },
               .ok (status, some v2))

/-- `HashTable::set` (hash_table.cc lines 318-327): find-for-write then
update in place, or insert at the head of the bucket chain.  Modelled
from the spec for the defaulted argument (declared outside these
sources): writes look up tombstones too, i.e. `wants_deleted = Yes`. -/
def HashTable.set (ht : HashTable) (itm : Item) (coin : Bool) :
    HashTable × Except HTError MutationStatus :=
  match ht.findForWrite itm.key WantsDeleted.yes with
  | .error e => (ht, .error e)
  | .ok none =>
      let r := ht.unlocked_addNewStoredValue (ht.getLockedBucket itm.key) itm
      (r.1, r.2.map fun _ => .wasClean)
  | .ok (some j) =>
      let r := ht.unlocked_updateStoredValue (ht.getLockedBucket itm.key) j itm coin
      (r.1, r.2.map Prod.fst)

/-! ## Delete, release, eviction, restore -/

/-- Modelled from the spec: `StoredValue::markDeleted` sets
`deleted=true` and `delete_source=source`, keeping the value buffer
(tombstone with body, spec §4.5). -/
def StoredValue.markDeleted (sv : StoredValue) (src : DeleteSource) : StoredValue :=
  { sv with deleted := true, deleteSource := src }

/-- Modelled from the spec: `StoredValue::del` clears the value buffer
and sets `deleted=true` (spec §4.5). -/
def StoredValue.del (sv : StoredValue) (src : DeleteSource) : StoredValue :=
  { sv with deleted := true, deleteSource := src, valSize := 0, uncompressedSize := 0 }

/-- `StoredValue::markClean`. -/
def StoredValue.markClean (sv : StoredValue) : StoredValue := { sv with dirty := false }

/-- Modelled from the spec: `StoredValue::markNotResident` discards the
value, leaving a metadata-only entry (glossary: "Non-resident:
metadata-only entry"). -/
def StoredValue.markNotResident (sv : StoredValue) : StoredValue :=
  { sv with resident := false, valSize := 0, uncompressedSize := 0 }

/-- `HashTable::unlocked_softDelete` (hash_table.cc lines 543-568),
acting on the value at position `j` of bucket `b`.  Note: the source
performs no active-state and no lock check here. -/
def HashTable.unlocked_softDelete (ht : HashTable) (b j : Nat) (onlyMarkDeleted : Bool)
    (delSource : DeleteSource) : HashTable × Except HTError (DeletionStatus × Option StoredValue) :=
  match (ht.chainAt b)[j]? with
  | none => (ht, .error .invalidArgument) -- a dangling reference; unreachable under the call contract
  | some v =>
      match v.committed with
      | .pending | .preparedMaybeVisible =>
          -- Cannot update a SV if it is a Pending item.
          (ht, .ok (.isPendingSyncWrite, none))
      | .committedViaMutation | .committedViaPrepare =>
          let pre := Statistics.prologue (some v)
          let v2 := if onlyMarkDeleted then v.markDeleted delSource else v.del delSource
          let stats := ht.valueStats.epilogue pre (some v2)
          ({ ht.setChain b ((ht.chainAt b).set j v2) with valueStats := stats },
           .ok (.success, some v2))

/-- `HashTable::unlocked_release` keyed variant together with
`unlocked_release_inner` (hash_table.cc lines 680-732): remove the
first StoredValue with the given key from the bucket chain; logic error
when inactive or when no entry matches. -/
def HashTable.unlocked_release (ht : HashTable) (b : Nat) (k : DocKey) :
    HashTable × Except HTError StoredValue :=
  if !ht.activeState then (ht, .error .logicError)
  else
    match (ht.chainAt b).find? (fun v => v.hasKey k) with
    | none =>
        -- "StoredValue to be released not found in HashTable; possibly
        -- HashTable leak"
        (ht, .error .logicError)
    | some released =>
        let chain2 := (ht.chainAt b).eraseP (fun v => v.hasKey k)
        let stats := ht.valueStats.epilogue (Statistics.prologue (some released)) none
        ({ ht.setChain b chain2 with valueStats := stats }, .ok released)

/-- `HashTable::unlocked_del` keyed variant: release and drop. -/
def HashTable.unlocked_del (ht : HashTable) (b : Nat) (k : DocKey) :
    HashTable × Except HTError Unit :=
  let r := ht.unlocked_release b k
  (r.1, r.2.map fun _ => ())

/-- Modelled from the spec: `StoredValue::eligibleForEviction` is left
abstract by the spec (§4.8); we model value eviction as requiring a
clean, resident, non-pending entry, and full eviction a clean
non-pending entry. -/
def StoredValue.eligibleForEviction (sv : StoredValue) (policy : EvictionPolicy) : Bool :=
  match policy with
  | .value => sv.isResident && !sv.isDirty && !sv.isPending
  | .full => !sv.isDirty && !sv.isPending

/-- Modelled from the spec: `StoredValue::ejectValue` drops the value
buffer, keeping key + metadata (spec §4.8). -/
def StoredValue.ejectValue (sv : StoredValue) : StoredValue :=
  { sv with resident := false, valSize := 0, uncompressedSize := 0 }

/-- Replace the first element structurally equal to `sv` (modelling an
in-place update through the pointer the caller holds). -/
def chainReplaceFirst : List StoredValue → StoredValue → StoredValue → List StoredValue
  | [], _, _ => []
  | v :: rest, sv, newSv =>
      if v == sv then newSv :: rest else v :: chainReplaceFirst rest sv newSv

/-- `HashTable::unlocked_ejectItem` (hash_table.cc lines 956-997).  The
C++ receives the victim by pointer; pointer identity is modelled as
structural equality, and the bucket holding the victim is derived from
its hash exactly as the Full-policy code does.  The null-pointer check
precedes in the source; a value argument is never null here. -/
def HashTable.unlocked_ejectItem (ht : HashTable) (sv : StoredValue) (policy : EvictionPolicy) :
    HashTable × Except HTError Bool :=
  if !(sv.eligibleForEviction policy) then
    ({ ht with numFailedEjects := ht.numFailedEjects + 1 }, .ok false)
  else
    let pre := Statistics.prologue (some sv)
    match policy with
    | .value =>
        let sv2 := sv.ejectValue
        let b := ht.getBucketForHash sv.key.hash
        let ht1 := ht.setChain b (chainReplaceFirst (ht.chainAt b) sv sv2)
        let stats := ht1.valueStats.epilogue pre (some sv2)
        ({ ht1 with
            valueStats := stats
            numValueEjects := ht.numValueEjects + 1
            numEjects := ht.numEjects + 1 }, .ok true)
    | .full =>
        -- Remove the item from the hash table.
        let b := ht.getBucketForHash sv.key.hash
        match (ht.chainAt b).find? (fun v => v == sv) with
        | none => (ht, .error .invalidArgument) -- the source would dereference null; unreachable under the contract
        | some removed =>
            let ht1 := ht.setChain b ((ht.chainAt b).eraseP (fun v => v == sv))
            let stats := ht1.valueStats.epilogue pre none
            ({ ht1 with
                valueStats := stats
                numValueEjects := ht.numValueEjects + (if removed.isResident then 1 else 0)
                maxDeletedRevSeqno := max ht.maxDeletedRevSeqno sv.revSeqno
                numEjects := ht.numEjects + 1 }, .ok true)

/-- Modelled from the spec: `StoredValue::restoreValue` puts the
value bytes carried by the item back into the entry (spec §4.10); the
entry becomes resident and is no longer a temp placeholder.  Key and
commit state are unchanged. -/
def StoredValue.restoreValue (sv : StoredValue) (itm : Item) : StoredValue :=
  { sv with
    resident := true
    tempItem := false
    datatype := itm.datatype
    valSize := itm.valSize
    uncompressedSize := itm.uncompressedSize }

/-- `HashTable::unlocked_restoreValue` (hash_table.cc lines 1012-1033):
fails (returns false) when inactive or already resident; temp items
revert `new_cache_item`; stats-bracketed restore. -/
def HashTable.unlocked_restoreValue (ht : HashTable) (b j : Nat) (itm : Item) :
    HashTable × Bool :=
  match (ht.chainAt b)[j]? with
  | none => (ht, false)
  | some v =>
      if !ht.activeState || v.isResident then (ht, false)
      else
        let pre := Statistics.prologue (some v)
        let v1 := if v.isTempItem then { v with newCacheItem := false } else v
        let v2 := v1.restoreValue itm
        let stats := ht.valueStats.epilogue pre (some v2)
        ({ ht.setChain b ((ht.chainAt b).set j v2) with valueStats := stats }, true)

/-- Modelled from the spec: `StoredValue::restoreMeta` copies metadata
from the item into the entry without touching value residency
(spec §4.10). -/
def StoredValue.restoreMeta (sv : StoredValue) (itm : Item) : StoredValue :=
  { sv with
    cas := itm.cas
    flags := itm.flags
    exptime := itm.exptime
    revSeqno := itm.revSeqno }

/-- `HashTable::unlocked_restoreMeta` (hash_table.cc lines 1035-1055):
logic error when inactive; stats-bracketed metadata restore. -/
def HashTable.unlocked_restoreMeta (ht : HashTable) (b j : Nat) (itm : Item) :
    HashTable × Except HTError Unit :=
  if !ht.activeState then (ht, .error .logicError)
  else
    match (ht.chainAt b)[j]? with
    | none => (ht, .error .invalidArgument) -- a dangling reference; unreachable under the call contract
    | some v =>
        let pre := Statistics.prologue (some v)
        let v2 := v.restoreMeta itm
        let stats := ht.valueStats.epilogue pre (some v2)
        ({ ht.setChain b ((ht.chainAt b).set j v2) with valueStats := stats }, .ok ())

/-! ## insertFromWarmup (hash_table.cc lines 734-792) -/

/-- The common tail of `insertFromWarmup`: `v->markClean()`, the
optional eviction, and the historical `NotFound` return. -/
def HashTable.insertFromWarmupTail (ht : HashTable) (b j : Nat)
    (eject keyMetaDataOnly : Bool) (policy : EvictionPolicy) :
    HashTable × Except HTError MutationStatus :=
  match (ht.chainAt b)[j]? with
  | none => (ht, .error .invalidArgument) -- dead branch: j always points at the entry
  | some v =>
      let v1 := v.markClean
      let ht1 := ht.setChain b ((ht.chainAt b).set j v1)
      if eject && !keyMetaDataOnly then
        let r := ht1.unlocked_ejectItem v1 policy
        (r.1, r.2.map fun _ => .notFound)
      else (ht1, .ok .notFound)

/-- The existing-entry branch after the CAS check: restore the value if
the entry is non-resident (`Expects` that the restore succeeds), then
the common tail. -/
def HashTable.insertFromWarmupExisting (ht : HashTable) (b j : Nat) (itm : Item)
    (eject : Bool) (policy : EvictionPolicy) : HashTable × Except HTError MutationStatus :=
  match (ht.chainAt b)[j]? with
  | none => (ht, .error .invalidArgument) -- dead branch: j always points at the entry
  | some v =>
      if !v.isResident then
        let r := ht.unlocked_restoreValue b j itm
        if r.2 then r.1.insertFromWarmupTail b j eject false policy
        else (r.1, .error .expectsFailed)
      else ht.insertFromWarmupTail b j eject false policy

/-- The CAS-zero reconciliation of `insertFromWarmup` (hash_table.cc
lines 768-772): fill CAS, flags, expiry and rev_seqno in from the item. -/
def StoredValue.fillFromItem (sv : StoredValue) (itm : Item) : StoredValue :=
  { sv with
    cas := itm.cas
    flags := itm.flags
    exptime := itm.exptime
    revSeqno := itm.revSeqno }

/-- The new-entry path of `insertFromWarmup` after the insertion (the
new value sits at the head of bucket `b`): optional `markNotResident`
with its stats bracket when `keyMetaDataOnly`, then
`setNewCacheItem(false)`, then the common tail. -/
def HashTable.setHeadNewCacheItem (ht : HashTable) (b : Nat) : HashTable :=
  match (ht.chainAt b)[0]? with
  | none => ht -- dead branch: the chain is nonempty
  | some w => ht.setChain b ((ht.chainAt b).set 0 { w with newCacheItem := false })

def HashTable.insertFromWarmupNew (ht : HashTable) (b : Nat) (v : StoredValue)
    (eject keyMetaDataOnly : Bool) (policy : EvictionPolicy) :
    HashTable × Except HTError MutationStatus :=
  let step : HashTable :=
    if keyMetaDataOnly then
      let pre := Statistics.prologue (some v)
      let v2 := v.markNotResident
      let stats := ht.valueStats.epilogue pre (some v2)
      { ht.setChain b ((ht.chainAt b).set 0 v2) with valueStats := stats }
    else ht
  (step.setHeadNewCacheItem b).insertFromWarmupTail b 0 eject keyMetaDataOnly policy

/-- `HashTable::insertFromWarmup` (hash_table.cc lines 734-792): insert
or reconcile an item loaded from persistence at startup. -/
def HashTable.insertFromWarmup (ht : HashTable) (itm : Item)
    (eject keyMetaDataOnly : Bool) (policy : EvictionPolicy) :
    HashTable × Except HTError MutationStatus :=
  match ht.findInner itm.key with
  | .error e => (ht, .error e)
  | .ok (b, cmtIdx, pendIdx) =>
      match if itm.isCommitted then cmtIdx else pendIdx with
      | none =>
          let r := ht.unlocked_addNewStoredValue b itm
          match r.2 with
          | .error e => (r.1, .error e)
          | .ok v => r.1.insertFromWarmupNew b v eject keyMetaDataOnly policy
      | some j =>
          if keyMetaDataOnly then
            -- We don't have a better error code ;)
            (ht, .ok .invalidCas)
          else
            match (ht.chainAt b)[j]? with
            | none => (ht, .error .invalidArgument) -- dead branch: scan positions are in range
            | some v =>
                -- Verify that the CAS isn't changed.
                if v.cas ≠ itm.cas then
                  if v.cas = 0 then
                    let v1 := v.fillFromItem itm
                    let ht1 := ht.setChain b ((ht.chainAt b).set j v1)
                    ht1.insertFromWarmupExisting b j itm eject policy
                  else (ht, .ok .invalidCas)
                else ht.insertFromWarmupExisting b j itm eject policy

/-! ## Resize (hash_table.cc lines 185-273) -/

/-- The (signed) prime growth table, terminated by -1. -/
def primeSizeTable : List Int :=
  [3, 7, 13, 23, 47, 97, 193, 383, 769, 1531, 3079, 6143, 12289, 24571, 49157,
   98299, 196613, 393209, 786433, 1572869, 3145721, 6291449, 12582917,
   25165813, 50331653, 100663291, 201326611, 402653189, 805306357,
   1610612741, -1]

/-- `std::numeric_limits<int>::max()` on the target platform. -/
def intMax : Nat := 2147483647

/-- The walk `for (i = 0; prime_size_table[i] > 0 && prime_size_table[i] < target; ++i)`. -/
def primeWalk (target : Int) : List Int → Nat
  | [] => 0
  | p :: rest => if p > 0 ∧ p < target then primeWalk target rest + 1 else 0

/-- The static helper `distance(a, b) = max(a,b) - min(a,b)`. -/
def sizeDistance (a b : Nat) : Nat := max a b - min a b

/-- The static helper `nearest(n, a, b)`: whichever of `a`, `b` is
closer to `n` (`b` on a tie). -/
def nearestSize (n a b : Nat) : Nat :=
  if sizeDistance n a < sizeDistance b n then a else b

/-- The branch chain of the argumentless `HashTable::resize()`
(hash_table.cc lines 196-211), given the walk's stopping index `i`. -/
def chooseFromWalk (ni initialSize size i : Nat) : Nat :=
  if primeSizeTable.getD i 0 = -1 then
    -- We're at the end, take the biggest.
    (primeSizeTable.getD (i - 1) 0).toNat
  else if primeSizeTable.getD i 0 < (initialSize : Int) then
    -- Was going to be smaller than the initial size.
    initialSize
  else if i = 0 then (primeSizeTable.getD i 0).toNat
  else if (size : Int) = primeSizeTable.getD (i - 1) 0 ∨
      (size : Int) = primeSizeTable.getD i 0 then
    -- One of the candidate sizes is the current size: remain stable.
    size
  else
    -- Somewhere in the middle, use the one we're closer to.
    nearestSize ni (primeSizeTable.getD (i - 1) 0).toNat (primeSizeTable.getD i 0).toNat

/-- The size-selection logic of the argumentless `HashTable::resize()`
(hash_table.cc lines 185-213) as a function of the current number of
in-memory items, the initial size and the current size. -/
def chooseNewSize (ni initialSize size : Nat) : Nat :=
  chooseFromWalk ni initialSize size (primeWalk (ni : Int) primeSizeTable)

/-- One step of the rebucketing loop: move every value of one old chain,
head first, to the head of its new bucket (`hash mod newSize`). -/
def rebucketChain (newSize : Nat) (c : List StoredValue)
    (acc : List (List StoredValue)) : List (List StoredValue) :=
  c.foldl (fun a v => a.set (v.key.hash % newSize) (v :: a.getD (v.key.hash % newSize) [])) acc

/-- The full rebucketing of `HashTable::resize(size_t)`: every old
chain is emptied into a fresh vector of `newSize` buckets. -/
def rebucket (newSize : Nat) (vals : List (List StoredValue)) : List (List StoredValue) :=
  vals.foldl (fun a c => rebucketChain newSize c a) (List.replicate newSize [])

/-- `HashTable::resize(size_t)` (hash_table.cc lines 216-273): logic
error when inactive; silent no-op when the new size exceeds the
signed-int cap, equals the current size, or visitors are in flight;
otherwise rebucket every entry by `hash mod newSize`.  (The EPStats
memory-overhead aggregates are global observables outside the table
state and are not modelled.) -/
def HashTable.resizeTo (ht : HashTable) (newSize : Nat) : HashTable × Except HTError Unit :=
  if !ht.activeState then (ht, .error .logicError)
  else if newSize > intMax then (ht, .ok ())
  else if newSize == ht.size then (ht, .ok ())
  else if ht.visitors > 0 then
    -- Do not allow a resize while any visitors are actually processing.
    (ht, .ok ())
  else
    ({ ht with
        size := newSize
        values := rebucket newSize ht.values
        numResizes := ht.numResizes + 1 }, .ok ())

/-- Modelled from the spec: `getNumInMemoryItems()` is declared outside
these sources; the spec bases the choice on the "current number of
in-memory items" (§4.6), i.e. the tracked item count. -/
def HashTable.getNumInMemoryItems (ht : HashTable) : Nat := ht.valueStats.numItems.toNat

/-- The argumentless `HashTable::resize()` (hash_table.cc lines
185-214): choose a size from the prime table and resize to it. -/
def HashTable.resizeAuto (ht : HashTable) : HashTable × Except HTError Unit :=
  ht.resizeTo (chooseNewSize ht.getNumInMemoryItems ht.initialSize ht.size)

/-! ## Invariants and the operation step relation -/

/-- The entries of a chain matching key `k` in category `pend`
(`pend = true` for the two pending commit-states, `false` for the two
committed ones; spec §3 invariant 2). -/
def matchesCat (k : DocKey) (pend : Bool) (sv : StoredValue) : Bool :=
  sv.hasKey k && (sv.isPending == pend)

/-- Dual-entry uniqueness within one chain: at most one committed and
at most one pending entry per key (spec §3 invariant 2). -/
def chainUniq (c : List StoredValue) : Prop :=
  ∀ k : DocKey, c.countP (matchesCat k true) ≤ 1 ∧ c.countP (matchesCat k false) ≤ 1

/-- Every value of the chain at bucket `b` hashes to bucket `b`
(spec §3 invariant 1). -/
def bucketPlaced (size b : Nat) (c : List StoredValue) : Prop :=
  ∀ sv ∈ c, sv.key.hash % size = b

/-- The reachable-state invariant: the bucket vector has the advertised
positive length, every value is in the bucket its hash selects, and
every chain satisfies dual-entry uniqueness. -/
structure Inv (ht : HashTable) : Prop where
  lenEq : ht.values.length = ht.size
  sizePos : 0 < ht.size
  placed : ∀ b, bucketPlaced ht.size b (ht.chainAt b)
  uniq : ∀ b, chainUniq (ht.chainAt b)

/-- One application of a HashTable operation, as invoked through its
legitimate call contract.  `unlocked_updateStoredValue` is called on
the value `findForWrite` selected (as `set` does);
`unlocked_addNewStoredValue` is called only when no entry of the item's
commit category exists for its key (its callers `set`,
`unlocked_updateStoredValue` and `insertFromWarmup` all establish
this); `resize` is invoked with a positive size (C++ computes
`hash % newSize`, which is undefined for zero). -/
inductive Step : HashTable → HashTable → Prop
  | set (ht : HashTable) (itm : Item) (coin : Bool) :
      Step ht (ht.set itm coin).1
  | update (ht : HashTable) (itm : Item) (coin : Bool) (j : Nat)
      (hj : ht.findForWrite itm.key WantsDeleted.yes = .ok (some j)) :
      Step ht (ht.unlocked_updateStoredValue (ht.getLockedBucket itm.key) j itm coin).1
  | addNew (ht : HashTable) (itm : Item)
      (habs : (ht.chainAt (ht.getLockedBucket itm.key)).countP
          (matchesCat itm.key itm.isPending) = 0) :
      Step ht (ht.unlocked_addNewStoredValue (ht.getLockedBucket itm.key) itm).1
  | softDelete (ht : HashTable) (b j : Nat) (onlyMarkDeleted : Bool) (src : DeleteSource) :
      Step ht (ht.unlocked_softDelete b j onlyMarkDeleted src).1
  | del (ht : HashTable) (b : Nat) (k : DocKey) :
      Step ht (ht.unlocked_del b k).1
  | release (ht : HashTable) (b : Nat) (k : DocKey) :
      Step ht (ht.unlocked_release b k).1
  | eject (ht : HashTable) (sv : StoredValue) (policy : EvictionPolicy) :
      Step ht (ht.unlocked_ejectItem sv policy).1
  | warmup (ht : HashTable) (itm : Item) (eject keyMetaDataOnly : Bool)
      (policy : EvictionPolicy) :
      Step ht (ht.insertFromWarmup itm eject keyMetaDataOnly policy).1
  | restoreVal (ht : HashTable) (b j : Nat) (itm : Item) :
      Step ht (ht.unlocked_restoreValue b j itm).1
  | restoreMeta (ht : HashTable) (b j : Nat) (itm : Item) :
      Step ht (ht.unlocked_restoreMeta b j itm).1
  | resize (ht : HashTable) (newSize : Nat) (hpos : 0 < newSize) :
      Step ht (ht.resizeTo newSize).1
  | resizeAuto (ht : HashTable) :
      Step ht ht.resizeAuto.1
  | read (ht : HashTable) (k : DocKey) (tr : TrackReference) (wd : WantsDeleted) (coin : Bool) :
      Step ht (ht.findForRead k tr wd coin).1

/-- States reachable from a freshly constructed table of positive
initial size by any sequence of operations. -/
def Reachable (initialSize : Nat) (ht : HashTable) : Prop :=
  Relation.ReflTransGen Step (HashTable.init initialSize) ht

/-! ## Chain-level lemmas -/

/-- Left-biased choice on optional indices (the scan keeps the first
match it recorded). -/
def optOr : Option Nat → Option Nat → Option Nat
  | some x, _ => some x
  | none, y => y

/-- First index (counting from `i`) of a chain element satisfying `p`. -/
def chainFindIdx (p : StoredValue → Bool) : Nat → List StoredValue → Option Nat
  | _, [] => none
  | i, v :: rest => if p v then some i else chainFindIdx p (i + 1) rest

theorem optOr_none (x : Option Nat) : optOr x none = x := by
  cases x <;> rfl

theorem chainFindIdx_none_iff (p : StoredValue → Bool) (ch : List StoredValue) :
    ∀ i, chainFindIdx p i ch = none ↔ ch.countP p = 0 := by
  induction ch with
  | nil => intro i; simp [chainFindIdx]
  | cons v rest ih =>
      intro i
      by_cases hv : p v
      · simp [chainFindIdx, hv, List.countP_cons]
      · simp [chainFindIdx, hv, List.countP_cons, ih (i + 1)]

theorem chainFindIdx_some (p : StoredValue → Bool) (ch : List StoredValue) :
    ∀ i j, chainFindIdx p i ch = some j →
      i ≤ j ∧ ∃ w, ch[j - i]? = some w ∧ p w = true := by
  induction ch with
  | nil => intro i j h; simp [chainFindIdx] at h
  | cons v rest ih =>
      intro i j h
      by_cases hv : p v
      · simp [chainFindIdx, hv] at h
        subst h
        exact ⟨Nat.le_refl _, v, by simp, hv⟩
      · simp [chainFindIdx, hv] at h
        obtain ⟨hle, w, hw, hpw⟩ := ih (i + 1) j h
        refine ⟨Nat.le_of_succ_le hle, w, ?_, hpw⟩
        have hij : j - i = (j - (i + 1)) + 1 := by omega
        simpa [hij] using hw

/-- The scan loop, when it succeeds, returns for each category the
recorded accumulator or else the first matching position. -/
theorem scanChainGo_ok_eq (k : DocKey) (ch : List StoredValue) :
    ∀ i cmt pend ci pi, scanChainGo k i cmt pend ch = .ok (ci, pi) →
      ci = optOr cmt (chainFindIdx (matchesCat k false) i ch) ∧
      pi = optOr pend (chainFindIdx (matchesCat k true) i ch) := by
  induction ch with
  | nil =>
      intro i cmt pend ci pi h
      simp [scanChainGo] at h
      simp [chainFindIdx, optOr_none, h.1, h.2]
  | cons v rest ih =>
      intro i cmt pend ci pi h
      by_cases hk : v.hasKey k
      · by_cases hp : v.isPending
        · rcases pend with _ | x
          · simp [scanChainGo, hk, hp] at h
            have := ih (i + 1) cmt (some i) ci pi h
            simpa [chainFindIdx, matchesCat, hk, hp, optOr] using this
          · simp [scanChainGo, hk, hp] at h
        · rcases cmt with _ | x
          · simp [scanChainGo, hk, hp] at h
            have := ih (i + 1) (some i) pend ci pi h
            simpa [chainFindIdx, matchesCat, hk, hp, optOr] using this
          · simp [scanChainGo, hk, hp] at h
      · simp [scanChainGo, hk] at h
        have := ih (i + 1) cmt pend ci pi h
        simpa [chainFindIdx, matchesCat, hk] using this

/-- The scan succeeds exactly when neither category exceeds one match
(counting a match already recorded in the accumulator). -/
theorem scanChainGo_ok_iff (k : DocKey) (ch : List StoredValue) :
    ∀ i cmt pend, (∃ r, scanChainGo k i cmt pend ch = .ok r) ↔
      (ch.countP (matchesCat k false) + (if cmt.isSome then 1 else 0) ≤ 1 ∧
       ch.countP (matchesCat k true) + (if pend.isSome then 1 else 0) ≤ 1) := by
  induction ch with
  | nil =>
      intro i cmt pend
      constructor
      · intro _
        constructor <;> cases cmt <;> cases pend <;> simp
      · intro _; exact ⟨(cmt, pend), rfl⟩
  | cons v rest ih =>
      intro i cmt pend
      by_cases hk : v.hasKey k
      · by_cases hp : v.isPending
        · rcases pend with _ | x
          · rw [show scanChainGo k i cmt none (v :: rest) =
                scanChainGo k (i + 1) cmt (some i) rest by simp [scanChainGo, hk, hp]]
            rw [ih (i + 1) cmt (some i)]
            simp [List.countP_cons, matchesCat, hk, hp]
          · constructor
            · intro ⟨r, hr⟩
              simp [scanChainGo, hk, hp] at hr
            · intro ⟨h1, h2⟩
              simp [List.countP_cons, matchesCat, hk, hp] at h2
        · rcases cmt with _ | x
          · rw [show scanChainGo k i none pend (v :: rest) =
                scanChainGo k (i + 1) (some i) pend rest by simp [scanChainGo, hk, hp]]
            rw [ih (i + 1) (some i) pend]
            simp [List.countP_cons, matchesCat, hk, hp]
          · constructor
            · intro ⟨r, hr⟩
              simp [scanChainGo, hk, hp] at hr
            · intro ⟨h1, h2⟩
              simp [List.countP_cons, matchesCat, hk, hp] at h1
      · rw [show scanChainGo k i cmt pend (v :: rest) =
            scanChainGo k (i + 1) cmt pend rest by simp [scanChainGo, hk]]
        rw [ih (i + 1) cmt pend]
        simp [List.countP_cons, matchesCat, hk]

/-- Setting position `j` to a value of the same class (same key and
pending-category) does not change any category count. -/
theorem countP_set_eq (p : StoredValue → Bool) :
    ∀ (ch : List StoredValue) (j : Nat) (v : StoredValue),
      (∀ w, ch[j]? = some w → p v = p w) → (ch.set j v).countP p = ch.countP p := by
  intro ch
  induction ch with
  | nil => intro j v _; rfl
  | cons a rest ih =>
      intro j v hcl
      cases j with
      | zero =>
          have ha : p v = p a := hcl a (by simp)
          simp [List.set, List.countP_cons, ha]
      | succ j =>
          have := ih j v (fun w hw => hcl w (by simpa using hw))
          simp [List.set, List.countP_cons, this]

theorem countP_chainReplaceFirst (p : StoredValue → Bool) (sv newSv : StoredValue)
    (hp : p newSv = p sv) :
    ∀ ch, (chainReplaceFirst ch sv newSv).countP p = ch.countP p := by
  intro ch
  induction ch with
  | nil => rfl
  | cons a rest ih =>
      by_cases ha : a == sv
      · have : a = sv := by simpa using ha
        simp [chainReplaceFirst, ha, List.countP_cons, hp, this]
      · simp [chainReplaceFirst, ha, List.countP_cons, ih]

theorem mem_chainReplaceFirst {x sv newSv : StoredValue} :
    ∀ {ch : List StoredValue}, x ∈ chainReplaceFirst ch sv newSv → x ∈ ch ∨ x = newSv := by
  intro ch
  induction ch with
  | nil => intro h; simp [chainReplaceFirst] at h
  | cons a rest ih =>
      intro h
      by_cases ha : a == sv
      · simp [chainReplaceFirst, ha] at h
        rcases h with h | h
        · right; exact h
        · left; simp [h]
      · simp [chainReplaceFirst, ha] at h
        rcases h with h | h
        · left; simp [h]
        · rcases ih h with h2 | h2
          · left; simp [h2]
          · right; exact h2

/-! ## Invariant surgery lemmas -/

/-- `Inv` only mentions `values` and `size`. -/
theorem Inv.congr {ht ht2 : HashTable} (h : Inv ht) (hv : ht2.values = ht.values)
    (hs : ht2.size = ht.size) : Inv ht2 := by
  have hch : ∀ b, ht2.chainAt b = ht.chainAt b := by
    intro b; simp [HashTable.chainAt, hv]
  exact ⟨by rw [hv, hs, h.lenEq], hs ▸ h.sizePos,
         fun b => by rw [hch b, hs]; exact h.placed b,
         fun b => by rw [hch b]; exact h.uniq b⟩

theorem chainAt_setChain_self (ht : HashTable) (b : Nat) (ch : List StoredValue)
    (hb : b < ht.values.length) : (ht.setChain b ch).chainAt b = ch := by
  simp [HashTable.setChain, HashTable.chainAt, List.getD_eq_getElem?_getD,
        List.getElem?_set_self, hb]

theorem chainAt_setChain_ne (ht : HashTable) (b b2 : Nat) (ch : List StoredValue)
    (hne : b2 ≠ b) : (ht.setChain b ch).chainAt b2 = ht.chainAt b2 := by
  simp [HashTable.setChain, HashTable.chainAt, List.getD_eq_getElem?_getD,
        List.getElem?_set_ne (Ne.symm hne)]

theorem setChain_values_of_ge (ht : HashTable) (b : Nat) (ch : List StoredValue)
    (hb : ht.values.length ≤ b) : (ht.setChain b ch).values = ht.values := by
  simp [HashTable.setChain, List.set_eq_of_length_le hb]

theorem setChain_size (ht : HashTable) (b : Nat) (ch : List StoredValue) :
    (ht.setChain b ch).size = ht.size := rfl

theorem setChain_length (ht : HashTable) (b : Nat) (ch : List StoredValue) :
    (ht.setChain b ch).values.length = ht.values.length := by
  simp [HashTable.setChain]

/-- Replacing a chain by one whose members are members of the old chain
and whose category counts do not exceed the old ones preserves `Inv`. -/
theorem Inv.replaceChain {ht : HashTable} (h : Inv ht) (b : Nat) (ch2 : List StoredValue)
    (hmem : ∀ x ∈ ch2, x ∈ ht.chainAt b ∨ x.key.hash % ht.size = b)
    (hcnt : ∀ k cat, ch2.countP (matchesCat k cat) ≤ (ht.chainAt b).countP (matchesCat k cat)) :
    Inv (ht.setChain b ch2) := by
  by_cases hb : b < ht.values.length
  · refine ⟨?_, ?_, ?_, ?_⟩
    · rw [setChain_length, setChain_size, h.lenEq]
    · rw [setChain_size]; exact h.sizePos
    · intro b2 sv hsv
      rw [setChain_size]
      by_cases hbe : b2 = b
      · subst hbe
        rw [chainAt_setChain_self ht b2 ch2 hb] at hsv
        rcases hmem sv hsv with hold | heq
        · exact h.placed b2 sv hold
        · exact heq
      · rw [chainAt_setChain_ne ht b b2 ch2 hbe] at hsv
        exact h.placed b2 sv hsv
    · intro b2 k
      by_cases hbe : b2 = b
      · subst hbe
        rw [chainAt_setChain_self ht b2 ch2 hb]
        exact ⟨Nat.le_trans (hcnt k true) (h.uniq b2 k).1,
               Nat.le_trans (hcnt k false) (h.uniq b2 k).2⟩
      · rw [chainAt_setChain_ne ht b b2 ch2 hbe]
        exact h.uniq b2 k
  · exact h.congr (setChain_values_of_ge ht b ch2 (Nat.le_of_not_lt hb)) rfl

/-- Surgery A: in-place update of position `j` by a value of the same
key and pending-category. -/
theorem Inv.setSameClass {ht : HashTable} (h : Inv ht) (b j : Nat) (v : StoredValue)
    (hcl : ∀ w, (ht.chainAt b)[j]? = some w → w.key = v.key ∧ w.isPending = v.isPending) :
    Inv (ht.setChain b ((ht.chainAt b).set j v)) := by
  by_cases hj : j < (ht.chainAt b).length
  · obtain ⟨w, hw⟩ : ∃ w, (ht.chainAt b)[j]? = some w := by
      simp [List.getElem?_eq_getElem, hj]
    obtain ⟨hkey, hpend⟩ := hcl w hw
    refine h.replaceChain b _ ?_ ?_
    · intro x hx
      rcases List.mem_or_eq_of_mem_set hx with hold | hveq
      · exact Or.inl hold
      · subst hveq
        have hwmem : w ∈ ht.chainAt b := by
          rcases List.getElem?_eq_some.1 hw with ⟨hlt, hEq⟩
          exact hEq ▸ List.getElem_mem hlt
        right
        rw [← hkey]
        exact h.placed b w hwmem
    · intro k cat
      have : ((ht.chainAt b).set j v).countP (matchesCat k cat) =
          (ht.chainAt b).countP (matchesCat k cat) := by
        refine countP_set_eq _ _ _ _ ?_
        intro w2 hw2
        rw [hw] at hw2
        cases hw2
        simp [matchesCat, StoredValue.hasKey, hkey, hpend]
      rw [this]
  · have : (ht.chainAt b).set j v = ht.chainAt b :=
      List.set_eq_of_length_le (Nat.le_of_not_lt hj)
    rw [this]
    exact h.replaceChain b _ (fun _x hx => Or.inl hx) (fun k cat => Nat.le_refl _)

/-- Surgery B: replacing a chain by a sublist of itself. -/
theorem Inv.subChain {ht : HashTable} (h : Inv ht) (b : Nat) (ch2 : List StoredValue)
    (hsub : List.Sublist ch2 (ht.chainAt b)) : Inv (ht.setChain b ch2) :=
  h.replaceChain b ch2 (fun _x hx => Or.inl (hsub.subset hx))
    (fun k cat => hsub.countP_le (matchesCat k cat))

/-- Surgery C: linking a new value at the head of the bucket its hash
selects, provided no entry of its category exists there for its key. -/
theorem Inv.consChain {ht : HashTable} (h : Inv ht) (v : StoredValue) (b : Nat)
    (hbdef : b = v.key.hash % ht.size)
    (habs : (ht.chainAt b).countP (matchesCat v.key v.isPending) = 0) :
    Inv (ht.setChain b (v :: ht.chainAt b)) := by
  have hb : b < ht.values.length := by
    rw [h.lenEq, hbdef]
    exact Nat.mod_lt _ h.sizePos
  refine ⟨?_, ?_, ?_, ?_⟩
  · rw [setChain_length, setChain_size, h.lenEq]
  · rw [setChain_size]; exact h.sizePos
  · intro b2 sv hsv
    rw [setChain_size]
    by_cases hbe : b2 = b
    · subst hbe
      rw [chainAt_setChain_self ht b2 _ hb] at hsv
      rcases List.mem_cons.mp hsv with hveq | hold
      · subst hveq; exact hbdef.symm
      · exact h.placed b2 sv hold
    · rw [chainAt_setChain_ne ht b b2 _ hbe] at hsv
      exact h.placed b2 sv hsv
  · intro b2 k
    by_cases hbe : b2 = b
    · subst hbe
      rw [chainAt_setChain_self ht b2 _ hb]
      constructor
      · rw [List.countP_cons]
        by_cases hm : matchesCat k true v
        · have hk : v.key = k ∧ v.isPending = true := by
            simpa [matchesCat, StoredValue.hasKey] using hm
          have : (ht.chainAt b2).countP (matchesCat k true) = 0 := by
            rw [← hk.1, ← hk.2]
            exact habs
          simp [this, hm]
        · have h1 := (h.uniq b2 k).1
          simp [hm]
          omega
      · rw [List.countP_cons]
        by_cases hm : matchesCat k false v
        · have hk : v.key = k ∧ v.isPending = false := by
            simpa [matchesCat, StoredValue.hasKey] using hm
          have : (ht.chainAt b2).countP (matchesCat k false) = 0 := by
            rw [← hk.1, ← hk.2]
            exact habs
          simp [this, hm]
        · have h1 := (h.uniq b2 k).2
          simp [hm]
          omega
    · rw [chainAt_setChain_ne ht b b2 _ hbe]
      exact h.uniq b2 k

/-- Surgery D: replacing the first chain element equal to `sv` by a
value of the same key and pending-category, in the bucket `sv`'s hash
selects. -/
theorem Inv.replaceFirstInv {ht : HashTable} (h : Inv ht) (sv newSv : StoredValue)
    (hk : newSv.key = sv.key) (hpend : newSv.isPending = sv.isPending) :
    Inv (ht.setChain (ht.getBucketForHash sv.key.hash)
          (chainReplaceFirst (ht.chainAt (ht.getBucketForHash sv.key.hash)) sv newSv)) := by
  refine h.replaceChain _ _ ?_ ?_
  · intro x hx
    rcases mem_chainReplaceFirst hx with hold | hxeq
    · exact Or.inl hold
    · subst hxeq
      right
      rw [hk]
      rfl
  · intro k cat
    rw [countP_chainReplaceFirst _ sv newSv
      (by simp [matchesCat, StoredValue.hasKey, hk, hpend])]

/-! ## Rebucketing lemmas (resize) -/

/-- Total category count over all bucket chains. -/
def valsCountP (p : StoredValue → Bool) (vals : List (List StoredValue)) : Nat :=
  (vals.map (fun ch => ch.countP p)).sum

theorem valsCountP_nil (p : StoredValue → Bool) : valsCountP p [] = 0 := rfl

theorem valsCountP_cons (p : StoredValue → Bool) (ch : List StoredValue)
    (vals : List (List StoredValue)) :
    valsCountP p (ch :: vals) = ch.countP p + valsCountP p vals := by
  simp [valsCountP]

theorem valsCountP_replicate (p : StoredValue → Bool) (n : Nat) :
    valsCountP p (List.replicate n []) = 0 := by
  induction n with
  | zero => rfl
  | succ n ih => simp [List.replicate, valsCountP_cons, ih]

theorem getD_set_self2 (acc : List (List StoredValue)) (j : Nat) (x : List StoredValue)
    (hj : j < acc.length) : (acc.set j x).getD j [] = x := by
  simp [List.getD_eq_getElem?_getD, List.getElem?_set_self, hj]

theorem getD_set_ne2 (acc : List (List StoredValue)) (i j : Nat) (x : List StoredValue)
    (hne : i ≠ j) : (acc.set j x).getD i [] = acc.getD i [] := by
  simp [List.getD_eq_getElem?_getD, List.getElem?_set_ne (Ne.symm hne)]

theorem valsCountP_set_cons (p : StoredValue → Bool) :
    ∀ (acc : List (List StoredValue)) (j : Nat) (v : StoredValue), j < acc.length →
      valsCountP p (acc.set j (v :: acc.getD j [])) =
        valsCountP p acc + (if p v then 1 else 0) := by
  intro acc
  induction acc with
  | nil => intro j v hj; simp at hj
  | cons a rest ih =>
      intro j v hj
      cases j with
      | zero =>
          rw [List.getD_cons_zero, List.set_cons_zero, valsCountP_cons, valsCountP_cons,
              List.countP_cons]
          omega
      | succ j =>
          have hj2 : j < rest.length := by simpa using hj
          rw [List.getD_cons_succ, List.set_cons_succ, valsCountP_cons, valsCountP_cons,
              ih j v hj2]
          omega

theorem rebucketChain_length (ns : Nat) :
    ∀ (ch : List StoredValue) (acc : List (List StoredValue)),
      (rebucketChain ns ch acc).length = acc.length := by
  intro ch
  induction ch with
  | nil => intro acc; rfl
  | cons v rest ih =>
      intro acc
      simp only [rebucketChain, List.foldl_cons]
      have := ih (acc.set (v.key.hash % ns) (v :: acc.getD (v.key.hash % ns) []))
      simp only [rebucketChain] at this
      rw [this, List.length_set]

theorem rebucketChain_valsCountP (ns : Nat) (p : StoredValue → Bool) (hns : 0 < ns) :
    ∀ (ch : List StoredValue) (acc : List (List StoredValue)), acc.length = ns →
      valsCountP p (rebucketChain ns ch acc) = valsCountP p acc + ch.countP p := by
  intro ch
  induction ch with
  | nil => intro acc _; simp [rebucketChain]
  | cons v rest ih =>
      intro acc hlen
      have hb : v.key.hash % ns < acc.length := by rw [hlen]; exact Nat.mod_lt _ hns
      simp only [rebucketChain, List.foldl_cons]
      have := ih (acc.set (v.key.hash % ns) (v :: acc.getD (v.key.hash % ns) []))
        (by rw [List.length_set, hlen])
      simp only [rebucketChain] at this
      rw [this, valsCountP_set_cons p acc _ v hb, List.countP_cons]
      omega

theorem rebucketChain_countP_getD (ns : Nat) (p : StoredValue → Bool) (i : Nat)
    (hns : 0 < ns) :
    ∀ (ch : List StoredValue) (acc : List (List StoredValue)), acc.length = ns →
      ((rebucketChain ns ch acc).getD i []).countP p =
        ((acc.getD i []).countP p) +
          ch.countP (fun v => p v && (v.key.hash % ns == i)) := by
  intro ch
  induction ch with
  | nil => intro acc _; simp [rebucketChain]
  | cons v rest ih =>
      intro acc hlen
      have hb : v.key.hash % ns < acc.length := by rw [hlen]; exact Nat.mod_lt _ hns
      simp only [rebucketChain, List.foldl_cons]
      have hrec := ih (acc.set (v.key.hash % ns) (v :: acc.getD (v.key.hash % ns) []))
        (by rw [List.length_set, hlen])
      simp only [rebucketChain] at hrec
      rw [hrec, List.countP_cons]
      by_cases hbi : v.key.hash % ns = i
      · subst hbi
        rw [getD_set_self2 acc _ _ hb, List.countP_cons]
        simp
        omega
      · rw [getD_set_ne2 acc i _ _ (Ne.symm hbi)]
        have : (v.key.hash % ns == i) = false := by simp [hbi]
        simp [this]

theorem rebucket_length (ns : Nat) (vals : List (List StoredValue)) :
    (rebucket ns vals).length = ns := by
  suffices h : ∀ (vs : List (List StoredValue)) (acc : List (List StoredValue)),
      (vs.foldl (fun a ch => rebucketChain ns ch a) acc).length = acc.length by
    rw [rebucket, h vals _, List.length_replicate]
  intro vs
  induction vs with
  | nil => intro acc; rfl
  | cons ch rest ih =>
      intro acc
      rw [List.foldl_cons, ih, rebucketChain_length]

theorem rebucket_valsCountP (ns : Nat) (p : StoredValue → Bool) (hns : 0 < ns)
    (vals : List (List StoredValue)) :
    valsCountP p (rebucket ns vals) = valsCountP p vals := by
  suffices h : ∀ (vs : List (List StoredValue)) (acc : List (List StoredValue)),
      acc.length = ns →
      valsCountP p (vs.foldl (fun a ch => rebucketChain ns ch a) acc) =
        valsCountP p acc + valsCountP p vs by
    rw [rebucket, h vals _ (List.length_replicate ns []), valsCountP_replicate,
        Nat.zero_add]
  intro vs
  induction vs with
  | nil => intro acc _; simp [valsCountP_nil]
  | cons ch rest ih =>
      intro acc hlen
      rw [List.foldl_cons, ih _ (by rw [rebucketChain_length, hlen]),
          rebucketChain_valsCountP ns p hns ch acc hlen, valsCountP_cons]
      omega

theorem rebucket_countP_getD (ns : Nat) (p : StoredValue → Bool) (i : Nat)
    (hns : 0 < ns) (vals : List (List StoredValue)) :
    ((rebucket ns vals).getD i []).countP p =
      valsCountP (fun v => p v && (v.key.hash % ns == i)) vals := by
  suffices h : ∀ (vs : List (List StoredValue)) (acc : List (List StoredValue)),
      acc.length = ns →
      ((vs.foldl (fun a ch => rebucketChain ns ch a) acc).getD i []).countP p =
        ((acc.getD i []).countP p) +
          valsCountP (fun v => p v && (v.key.hash % ns == i)) vs by
    have := h vals _ (List.length_replicate ns [])
    rw [rebucket, this]
    have hrep : (List.replicate ns ([] : List StoredValue)).getD i [] = [] := by
      cases Nat.lt_or_ge i ns with
      | inl hlt => simp [List.getD_eq_getElem?_getD, List.getElem?_replicate, hlt]
      | inr hge =>
          simp [List.getD_eq_getElem?_getD,
                List.getElem?_eq_none (by simpa using hge : (List.replicate ns ([] : List StoredValue)).length ≤ i)]
    rw [hrep]
    simp
  intro vs
  induction vs with
  | nil => intro acc _; simp [valsCountP_nil]
  | cons ch rest ih =>
      intro acc hlen
      rw [List.foldl_cons, ih _ (by rw [rebucketChain_length, hlen]),
          rebucketChain_countP_getD ns p i hns ch acc hlen, valsCountP_cons]
      omega

/-- Every value the rebucketing places in bucket `i` hashes to `i`. -/
theorem rebucket_placed (ns : Nat) (hns : 0 < ns) (vals : List (List StoredValue))
    (i : Nat) (sv : StoredValue) (hsv : sv ∈ (rebucket ns vals).getD i []) :
    sv.key.hash % ns = i := by
  have hpos : 0 < ((rebucket ns vals).getD i []).countP (fun v => v == sv) :=
    List.countP_pos_iff.mpr ⟨sv, hsv, by simp⟩
  rw [rebucket_countP_getD ns _ i hns vals] at hpos
  have hex : ∃ ch ∈ vals, 0 < ch.countP (fun v => (v == sv) && (v.key.hash % ns == i)) := by
    by_contra hnone
    push_neg at hnone
    have hall : ∀ x ∈ vals.map
        (fun ch => ch.countP (fun v => (v == sv) && (v.key.hash % ns == i))), x = 0 := by
      intro x hx
      obtain ⟨ch, hch, hcheq⟩ := List.mem_map.mp hx
      have := hnone ch hch
      omega
    have h0 : valsCountP (fun v => (v == sv) && (v.key.hash % ns == i)) vals = 0 := by
      rw [valsCountP]
      exact List.sum_eq_zero_iff.mpr hall
    omega
  obtain ⟨ch, hch, hchpos⟩ := hex
  obtain ⟨a, ha, hpa⟩ := List.countP_pos_iff.mp hchpos
  obtain ⟨heq, hbkt⟩ : a = sv ∧ a.key.hash % ns = i := by simpa using hpa
  rw [← heq]
  exact hbkt

/-! ## Find characterization -/

/-- A successful scan returns, for each category, the first matching
position. -/
theorem scanChain_ok_dest {k : DocKey} {ch : List StoredValue} {ci pi : Option Nat}
    (h : scanChain k ch = .ok (ci, pi)) :
    ci = chainFindIdx (matchesCat k false) 0 ch ∧
    pi = chainFindIdx (matchesCat k true) 0 ch := by
  have := scanChainGo_ok_eq k ch 0 none none ci pi h
  simpa [optOr] using this

theorem scanChain_none_count {k : DocKey} {ch : List StoredValue} {ci pi : Option Nat}
    (h : scanChain k ch = .ok (ci, pi)) :
    (ci = none → ch.countP (matchesCat k false) = 0) ∧
    (pi = none → ch.countP (matchesCat k true) = 0) := by
  obtain ⟨hc, hp⟩ := scanChain_ok_dest h
  constructor
  · intro hcn
    exact (chainFindIdx_none_iff _ ch 0).mp (by rw [← hc]; exact hcn)
  · intro hpn
    exact (chainFindIdx_none_iff _ ch 0).mp (by rw [← hp]; exact hpn)

theorem scanChain_some_elem {k : DocKey} {ch : List StoredValue} {ci pi : Option Nat}
    (h : scanChain k ch = .ok (ci, pi)) :
    (∀ j, ci = some j → ∃ w, ch[j]? = some w ∧ matchesCat k false w = true) ∧
    (∀ j, pi = some j → ∃ w, ch[j]? = some w ∧ matchesCat k true w = true) := by
  obtain ⟨hc, hp⟩ := scanChain_ok_dest h
  constructor
  · intro j hj
    obtain ⟨_, w, hw, hpw⟩ := chainFindIdx_some _ ch 0 j (by rw [← hc]; exact hj)
    exact ⟨w, by simpa using hw, hpw⟩
  · intro j hj
    obtain ⟨_, w, hw, hpw⟩ := chainFindIdx_some _ ch 0 j (by rw [← hp]; exact hj)
    exact ⟨w, by simpa using hw, hpw⟩

/-- A successful `findForWrite` with `wants_deleted = Yes` returning no
position means neither category has an entry for the key. -/
theorem findForWrite_yes_none {ht : HashTable} {k : DocKey}
    (h : ht.findForWrite k WantsDeleted.yes = .ok none) :
    (ht.chainAt (ht.getLockedBucket k)).countP (matchesCat k false) = 0 ∧
    (ht.chainAt (ht.getLockedBucket k)).countP (matchesCat k true) = 0 := by
  by_cases hact : ht.activeState
  · rcases hscan : scanChain k (ht.chainAt (ht.getLockedBucket k)) with e | ⟨ci, pi⟩
    · simp [HashTable.findForWrite, HashTable.findInner, hact, hscan] at h
    · rcases pi with _ | j
      · rcases ci with _ | j
        · exact ⟨(scanChain_none_count hscan).1 rfl, (scanChain_none_count hscan).2 rfl⟩
        · obtain ⟨w, hw, hmw⟩ := (scanChain_some_elem hscan).1 j rfl
          have heq : ht.findForWrite k WantsDeleted.yes = .ok (some j) := by
            simp [HashTable.findForWrite, HashTable.findInner, hact, hscan, hw]
          rw [heq] at h
          simp at h
      · have heq : ht.findForWrite k WantsDeleted.yes = .ok (some j) := by
          simp [HashTable.findForWrite, HashTable.findInner, hact, hscan]
        rw [heq] at h
        simp at h
  · simp [HashTable.findForWrite, HashTable.findInner, hact] at h

/-- A successful `findForWrite` returning position `j`: the entry at
`j` matches the key; it is either the pending entry, or it is committed
and no pending entry exists for the key. -/
theorem findForWrite_some {ht : HashTable} {k : DocKey} {wd : WantsDeleted} {j : Nat}
    (h : ht.findForWrite k wd = .ok (some j)) :
    ∃ w, (ht.chainAt (ht.getLockedBucket k))[j]? = some w ∧ w.hasKey k = true ∧
      (w.isPending = true ∨
        (w.isPending = false ∧
         (ht.chainAt (ht.getLockedBucket k)).countP (matchesCat k true) = 0)) := by
  by_cases hact : ht.activeState
  · rcases hscan : scanChain k (ht.chainAt (ht.getLockedBucket k)) with e | ⟨ci, pi⟩
    · simp [HashTable.findForWrite, HashTable.findInner, hact, hscan] at h
    · rcases pi with _ | j2
      · rcases ci with _ | j2
        · have heq : ht.findForWrite k wd = .ok none := by
            simp [HashTable.findForWrite, HashTable.findInner, hact, hscan]
          rw [heq] at h
          simp at h
        · obtain ⟨w, hw, hmw⟩ := (scanChain_some_elem hscan).1 j2 rfl
          by_cases hdel : w.isDeleted && (wd == WantsDeleted.no)
          · have heq : ht.findForWrite k wd = .ok none := by
              simp [HashTable.findForWrite, HashTable.findInner, hact, hscan, hw, hdel]
            rw [heq] at h
            simp at h
          · have heq : ht.findForWrite k wd = .ok (some j2) := by
              simp [HashTable.findForWrite, HashTable.findInner, hact, hscan, hw, hdel]
            rw [heq] at h
            simp at h
            subst h
            obtain ⟨hkm, hpm⟩ : w.hasKey k = true ∧ w.isPending = false := by
              simpa [matchesCat] using hmw
            exact ⟨w, hw, hkm, Or.inr ⟨hpm, (scanChain_none_count hscan).2 rfl⟩⟩
      · have heq : ht.findForWrite k wd = .ok (some j2) := by
          simp [HashTable.findForWrite, HashTable.findInner, hact, hscan]
        rw [heq] at h
        simp at h
        subst h
        obtain ⟨w, hw, hmw⟩ := (scanChain_some_elem hscan).2 j2 rfl
        obtain ⟨hkm, hpm⟩ : w.hasKey k = true ∧ w.isPending = true := by
          simpa [matchesCat] using hmw
        exact ⟨w, hw, hkm, Or.inl hpm⟩
  · simp [HashTable.findForWrite, HashTable.findInner, hact] at h

/-! ## Invariant preservation, operation by operation -/

theorem Inv.addNew {ht : HashTable} (h : Inv ht) (itm : Item)
    (habs : (ht.chainAt (ht.getLockedBucket itm.key)).countP
        (matchesCat itm.key itm.isPending) = 0) :
    Inv (ht.unlocked_addNewStoredValue (ht.getLockedBucket itm.key) itm).1 := by
  by_cases hact : ht.activeState
  · have heq : (ht.unlocked_addNewStoredValue (ht.getLockedBucket itm.key) itm).1 =
        { ht.setChain (ht.getLockedBucket itm.key)
            (mkStoredValue itm :: ht.chainAt (ht.getLockedBucket itm.key)) with
          valueStats := ht.valueStats.epilogue (Statistics.prologue none)
            (some (mkStoredValue itm)) } := by
      simp [HashTable.unlocked_addNewStoredValue, hact]
    rw [heq]
    exact (h.consChain (mkStoredValue itm) (ht.getLockedBucket itm.key) rfl habs).congr rfl rfl
  · have heq : (ht.unlocked_addNewStoredValue (ht.getLockedBucket itm.key) itm).1 = ht := by
      simp [HashTable.unlocked_addNewStoredValue, hact]
    rw [heq]; exact h

theorem Inv.updateSV {ht : HashTable} (h : Inv ht) (itm : Item) (coin : Bool) (j : Nat)
    (hfw : ht.findForWrite itm.key WantsDeleted.yes = .ok (some j)) :
    Inv (ht.unlocked_updateStoredValue (ht.getLockedBucket itm.key) j itm coin).1 := by
  obtain ⟨w, hw, hkm, hcase⟩ := findForWrite_some hfw
  by_cases hact : ht.activeState
  · rcases hwc : w.committed with _ | _ | _ | _
    rotate_left 2
    · have heq : (ht.unlocked_updateStoredValue (ht.getLockedBucket itm.key) j itm coin).1
          = ht := by
        simp [HashTable.unlocked_updateStoredValue, hact, hw, hwc]
      rw [heq]; exact h
    · have heq : (ht.unlocked_updateStoredValue (ht.getLockedBucket itm.key) j itm coin).1
          = ht := by
        simp [HashTable.unlocked_updateStoredValue, hact, hw, hwc]
      rw [heq]; exact h
    all_goals {
      have hwp : w.isPending = false := by
        simp [StoredValue.isPending, hwc]
      by_cases hip : itm.isPending
      · have habs : (ht.chainAt (ht.getLockedBucket itm.key)).countP
            (matchesCat itm.key itm.isPending) = 0 := by
          rw [hip]
          rcases hcase with hc | hc
          · rw [hc] at hwp; exact absurd hwp (by simp)
          · exact hc.2
        have heq : (ht.unlocked_updateStoredValue (ht.getLockedBucket itm.key) j itm coin).1 =
            (ht.unlocked_addNewStoredValue (ht.getLockedBucket itm.key) itm).1 := by
          rcases hr : ht.unlocked_addNewStoredValue (ht.getLockedBucket itm.key) itm
            with ⟨ht2, r2⟩
          rcases r2 with e | sv <;>
            simp [HashTable.unlocked_updateStoredValue, hact, hw, hwc, hip, hr]
        rw [heq]
        exact h.addNew itm habs
      · have hipf : itm.isPending = false := by simpa using hip
        have heq : (ht.unlocked_updateStoredValue (ht.getLockedBucket itm.key) j itm coin).1 =
            { ht.setChain (ht.getLockedBucket itm.key)
                ((ht.chainAt (ht.getLockedBucket itm.key)).set j
                  (updateFreqCounter coin (w.setValue itm))) with
              valueStats := ht.valueStats.epilogue (Statistics.prologue (some w))
                (some (updateFreqCounter coin (w.setValue itm))) } := by
          simp [HashTable.unlocked_updateStoredValue, hact, hw, hwc, hipf]
        rw [heq]
        refine (h.setSameClass (ht.getLockedBucket itm.key) j
          (updateFreqCounter coin (w.setValue itm)) ?_).congr rfl rfl
        intro w2 hw2
        rw [hw] at hw2
        obtain rfl := Option.some.inj hw2
        constructor
        · simp [updateFreqCounter, StoredValue.setValue]
        · have h2 : (updateFreqCounter coin (w.setValue itm)).isPending = itm.isPending := by
            simp [updateFreqCounter, StoredValue.setValue, StoredValue.isPending, Item.isPending]
          rw [h2, hipf]
          rw [StoredValue.isPending, hwc]
          simp }
  · have heq : (ht.unlocked_updateStoredValue (ht.getLockedBucket itm.key) j itm coin).1
        = ht := by
      simp [HashTable.unlocked_updateStoredValue, hact]
    rw [heq]; exact h

theorem Inv.setOp {ht : HashTable} (h : Inv ht) (itm : Item) (coin : Bool) :
    Inv (ht.set itm coin).1 := by
  rcases hfw : ht.findForWrite itm.key WantsDeleted.yes with e | r
  · have heq : (ht.set itm coin).1 = ht := by simp [HashTable.set, hfw]
    rw [heq]; exact h
  · rcases r with _ | j
    · obtain ⟨habs, _⟩ := findForWrite_yes_none hfw
      have heq : (ht.set itm coin).1 =
          (ht.unlocked_addNewStoredValue (ht.getLockedBucket itm.key) itm).1 := by
        simp [HashTable.set, hfw]
      rw [heq]
      refine h.addNew itm ?_
      by_cases hip : itm.isPending
      · rw [hip]; exact (findForWrite_yes_none hfw).2
      · have : itm.isPending = false := by simpa using hip
        rw [this]; exact habs
    · have heq : (ht.set itm coin).1 =
          (ht.unlocked_updateStoredValue (ht.getLockedBucket itm.key) j itm coin).1 := by
        simp [HashTable.set, hfw]
      rw [heq]
      exact h.updateSV itm coin j hfw

theorem Inv.softDeleteOp {ht : HashTable} (h : Inv ht) (b j : Nat) (onlyMarkDeleted : Bool)
    (src : DeleteSource) : Inv (ht.unlocked_softDelete b j onlyMarkDeleted src).1 := by
  rcases hw : (ht.chainAt b)[j]? with _ | w
  · have heq : (ht.unlocked_softDelete b j onlyMarkDeleted src).1 = ht := by
      simp [HashTable.unlocked_softDelete, hw]
    rw [heq]; exact h
  · rcases hwc : w.committed with _ | _ | _ | _
    rotate_left 2
    · have heq : (ht.unlocked_softDelete b j onlyMarkDeleted src).1 = ht := by
        simp [HashTable.unlocked_softDelete, hw, hwc]
      rw [heq]; exact h
    · have heq : (ht.unlocked_softDelete b j onlyMarkDeleted src).1 = ht := by
        simp [HashTable.unlocked_softDelete, hw, hwc]
      rw [heq]; exact h
    all_goals {
      have heq : (ht.unlocked_softDelete b j onlyMarkDeleted src).1 =
          { ht.setChain b ((ht.chainAt b).set j
              (if onlyMarkDeleted then w.markDeleted src else w.del src)) with
            valueStats := ht.valueStats.epilogue (Statistics.prologue (some w))
              (some (if onlyMarkDeleted then w.markDeleted src else w.del src)) } := by
        simp [HashTable.unlocked_softDelete, hw, hwc]
      rw [heq]
      refine (h.setSameClass b j _ ?_).congr rfl rfl
      intro w2 hw2
      rw [hw] at hw2
      obtain rfl := Option.some.inj hw2
      cases onlyMarkDeleted <;>
        simp [StoredValue.markDeleted, StoredValue.del, StoredValue.isPending] }

theorem Inv.releaseOp {ht : HashTable} (h : Inv ht) (b : Nat) (k : DocKey) :
    Inv (ht.unlocked_release b k).1 := by
  by_cases hact : ht.activeState
  · rcases hf : (ht.chainAt b).find? (fun v => v.hasKey k) with _ | w
    · have heq : (ht.unlocked_release b k).1 = ht := by
        simp [HashTable.unlocked_release, hact, hf]
      rw [heq]; exact h
    · have heq : (ht.unlocked_release b k).1 =
          { ht.setChain b ((ht.chainAt b).eraseP (fun v => v.hasKey k)) with
            valueStats := ht.valueStats.epilogue (Statistics.prologue (some w)) none } := by
        simp [HashTable.unlocked_release, hact, hf]
      rw [heq]
      exact (h.subChain b _ (List.eraseP_sublist _)).congr rfl rfl
  · have heq : (ht.unlocked_release b k).1 = ht := by
      simp [HashTable.unlocked_release, hact]
    rw [heq]; exact h

theorem Inv.delOp {ht : HashTable} (h : Inv ht) (b : Nat) (k : DocKey) :
    Inv (ht.unlocked_del b k).1 := by
  have heq : (ht.unlocked_del b k).1 = (ht.unlocked_release b k).1 := by
    simp [HashTable.unlocked_del]
  rw [heq]
  exact h.releaseOp b k

theorem Inv.ejectOp {ht : HashTable} (h : Inv ht) (sv : StoredValue)
    (policy : EvictionPolicy) : Inv (ht.unlocked_ejectItem sv policy).1 := by
  by_cases hel : sv.eligibleForEviction policy
  · rcases policy with _ | _
    · have heq : (ht.unlocked_ejectItem sv EvictionPolicy.value).1 =
          { ht.setChain (ht.getBucketForHash sv.key.hash)
              (chainReplaceFirst (ht.chainAt (ht.getBucketForHash sv.key.hash)) sv
                sv.ejectValue) with
            valueStats := (ht.setChain (ht.getBucketForHash sv.key.hash)
              (chainReplaceFirst (ht.chainAt (ht.getBucketForHash sv.key.hash)) sv
                sv.ejectValue)).valueStats.epilogue
                  (Statistics.prologue (some sv)) (some sv.ejectValue)
            numValueEjects := ht.numValueEjects + 1
            numEjects := ht.numEjects + 1 } := by
        simp [HashTable.unlocked_ejectItem, hel]
      rw [heq]
      refine (h.replaceFirstInv sv sv.ejectValue ?_ ?_).congr rfl rfl
      · simp [StoredValue.ejectValue]
      · simp [StoredValue.ejectValue, StoredValue.isPending]
    · rcases hf : (ht.chainAt (ht.getBucketForHash sv.key.hash)).find?
          (fun v => v == sv) with _ | w
      · have heq : (ht.unlocked_ejectItem sv EvictionPolicy.full).1 = ht := by
          simp [HashTable.unlocked_ejectItem, hel, hf]
        rw [heq]; exact h
      · have heq : (ht.unlocked_ejectItem sv EvictionPolicy.full).1 =
            { ht.setChain (ht.getBucketForHash sv.key.hash)
                ((ht.chainAt (ht.getBucketForHash sv.key.hash)).eraseP (fun v => v == sv)) with
              valueStats := (ht.setChain (ht.getBucketForHash sv.key.hash)
                ((ht.chainAt (ht.getBucketForHash sv.key.hash)).eraseP
                  (fun v => v == sv))).valueStats.epilogue
                    (Statistics.prologue (some sv)) none
              numValueEjects := ht.numValueEjects + (if w.isResident then 1 else 0)
              maxDeletedRevSeqno := max ht.maxDeletedRevSeqno sv.revSeqno
              numEjects := ht.numEjects + 1 } := by
          simp [HashTable.unlocked_ejectItem, hel, hf]
        rw [heq]
        exact (h.subChain _ _ (List.eraseP_sublist _)).congr rfl rfl
  · have heq : (ht.unlocked_ejectItem sv policy).1 =
        { ht with numFailedEjects := ht.numFailedEjects + 1 } := by
      simp [HashTable.unlocked_ejectItem, hel]
    rw [heq]
    exact h.congr rfl rfl

theorem Inv.restoreValueOp {ht : HashTable} (h : Inv ht) (b j : Nat) (itm : Item) :
    Inv (ht.unlocked_restoreValue b j itm).1 := by
  rcases hw : (ht.chainAt b)[j]? with _ | w
  · have heq : (ht.unlocked_restoreValue b j itm).1 = ht := by
      simp [HashTable.unlocked_restoreValue, hw]
    rw [heq]; exact h
  · by_cases hg : !ht.activeState || w.isResident
    · have heq : (ht.unlocked_restoreValue b j itm).1 = ht := by
        simp [HashTable.unlocked_restoreValue, hw, hg]
      rw [heq]; exact h
    · have heq : (ht.unlocked_restoreValue b j itm).1 =
          { ht.setChain b ((ht.chainAt b).set j
              ((if w.isTempItem then { w with newCacheItem := false } else w).restoreValue itm)) with
            valueStats := ht.valueStats.epilogue (Statistics.prologue (some w))
              (some ((if w.isTempItem then { w with newCacheItem := false } else w).restoreValue itm)) } := by
        simp [HashTable.unlocked_restoreValue, hw, hg]
      rw [heq]
      refine (h.setSameClass b j _ ?_).congr rfl rfl
      intro w2 hw2
      rw [hw] at hw2
      obtain rfl := Option.some.inj hw2
      by_cases ht2 : w.isTempItem <;>
        simp [ht2, StoredValue.restoreValue, StoredValue.isPending]

theorem Inv.restoreMetaOp {ht : HashTable} (h : Inv ht) (b j : Nat) (itm : Item) :
    Inv (ht.unlocked_restoreMeta b j itm).1 := by
  by_cases hact : ht.activeState
  · rcases hw : (ht.chainAt b)[j]? with _ | w
    · have heq : (ht.unlocked_restoreMeta b j itm).1 = ht := by
        simp [HashTable.unlocked_restoreMeta, hact, hw]
      rw [heq]; exact h
    · have heq : (ht.unlocked_restoreMeta b j itm).1 =
          { ht.setChain b ((ht.chainAt b).set j (w.restoreMeta itm)) with
            valueStats := ht.valueStats.epilogue (Statistics.prologue (some w))
              (some (w.restoreMeta itm)) } := by
        simp [HashTable.unlocked_restoreMeta, hact, hw]
      rw [heq]
      refine (h.setSameClass b j _ ?_).congr rfl rfl
      intro w2 hw2
      rw [hw] at hw2
      obtain rfl := Option.some.inj hw2
      simp [StoredValue.restoreMeta, StoredValue.isPending]
  · have heq : (ht.unlocked_restoreMeta b j itm).1 = ht := by
      simp [HashTable.unlocked_restoreMeta, hact]
    rw [heq]; exact h

theorem Inv.readOp {ht : HashTable} (h : Inv ht) (k : DocKey) (tr : TrackReference)
    (wd : WantsDeleted) (coin : Bool) : Inv (ht.findForRead k tr wd coin).1 := by
  rcases hfi : ht.findInner k with e | ⟨b, ci, pi⟩
  · have heq : (ht.findForRead k tr wd coin).1 = ht := by
      simp [HashTable.findForRead, hfi]
    rw [heq]; exact h
  · by_cases hblock : (pi.bind fun a =>
        Option.map StoredValue.isPreparedMaybeVisible (ht.chainAt b)[a]?).getD false
    · have heq : (ht.findForRead k tr wd coin).1 = ht := by
        simp only [HashTable.findForRead, hfi]
        simp [hblock]
      rw [heq]; exact h
    · rcases ci with _ | j
      · have heq : (ht.findForRead k tr wd coin).1 = ht := by
          simp only [HashTable.findForRead, hfi]
          simp [hblock]
        rw [heq]; exact h
      · rcases hw : (ht.chainAt b)[j]? with _ | sv
        · have heq : (ht.findForRead k tr wd coin).1 = ht := by
            simp only [HashTable.findForRead, hfi]
            simp [hblock, hw]
          rw [heq]; exact h
        · by_cases hdel : sv.isDeleted
          · have heq : (ht.findForRead k tr wd coin).1 = ht := by
              simp only [HashTable.findForRead, hfi]
              simp [hblock, hw, hdel]
            rw [heq]; exact h
          · by_cases htr : tr == TrackReference.yes
            · have heq : (ht.findForRead k tr wd coin).1 =
                  ht.setChain b ((ht.chainAt b).set j (updateFreqCounter coin sv)) := by
                simp only [HashTable.findForRead, hfi]
                simp [hblock, hw, hdel, htr]
              rw [heq]
              refine h.setSameClass b j _ ?_
              intro w2 hw2
              rw [hw] at hw2
              obtain rfl := Option.some.inj hw2
              simp [updateFreqCounter, StoredValue.isPending]
            · have heq : (ht.findForRead k tr wd coin).1 = ht := by
                simp only [HashTable.findForRead, hfi]
                simp [hblock, hw, hdel, htr]
              rw [heq]; exact h

theorem countP_imp_le {p q : StoredValue → Bool} (himp : ∀ v, p v = true → q v = true) :
    ∀ ch : List StoredValue, ch.countP p ≤ ch.countP q := by
  intro ch
  induction ch with
  | nil => simp
  | cons a rest ih =>
      rw [List.countP_cons, List.countP_cons]
      by_cases ha : p a
      · rw [himp a ha]
        simp [ha]
        omega
      · have : (if p a then 1 else 0) = 0 := by simp [ha]
        rw [this]
        have h2 : rest.countP q ≤ rest.countP q + (if q a then 1 else 0) := Nat.le_add_right _ _
        omega

theorem valsCountP_mono {p q : StoredValue → Bool} (himp : ∀ v, p v = true → q v = true) :
    ∀ vals : List (List StoredValue), valsCountP p vals ≤ valsCountP q vals := by
  intro vals
  induction vals with
  | nil => simp [valsCountP_nil]
  | cons ch rest ih =>
      rw [valsCountP_cons, valsCountP_cons]
      have := countP_imp_le himp ch
      omega

theorem valsCountP_zero (q : StoredValue → Bool) :
    ∀ vals : List (List StoredValue), (∀ j, (vals.getD j []).countP q = 0) →
      valsCountP q vals = 0 := by
  intro vals
  induction vals with
  | nil => intro _; rfl
  | cons a rest ih =>
      intro hall
      rw [valsCountP_cons]
      have h0 := hall 0
      rw [List.getD_cons_zero] at h0
      have hrest := ih (fun j => by have := hall (j + 1); rwa [List.getD_cons_succ] at this)
      omega

theorem valsCountP_le_one (q : StoredValue → Bool) :
    ∀ (vals : List (List StoredValue)) (b0 : Nat),
      (∀ j, j ≠ b0 → (vals.getD j []).countP q = 0) →
      (vals.getD b0 []).countP q ≤ 1 →
      valsCountP q vals ≤ 1 := by
  intro vals
  induction vals with
  | nil => intro b0 _ _; simp [valsCountP_nil]
  | cons a rest ih =>
      intro b0 hoff hb0
      rw [valsCountP_cons]
      cases b0 with
      | zero =>
          rw [List.getD_cons_zero] at hb0
          have hrest : valsCountP q rest = 0 := by
            refine valsCountP_zero q rest (fun j => ?_)
            have := hoff (j + 1) (by omega)
            rwa [List.getD_cons_succ] at this
          omega
      | succ b0 =>
          have h0 := hoff 0 (by omega)
          rw [List.getD_cons_zero] at h0
          rw [List.getD_cons_succ] at hb0
          have := ih b0 (fun j hj => by
            have := hoff (j + 1) (by omega)
            rwa [List.getD_cons_succ] at this) hb0
          omega

/-- In an invariant-satisfying table, each (key, category) has at most
one entry over the whole table. -/
theorem Inv.catCount_le_one {ht : HashTable} (h : Inv ht) (k : DocKey) (cat : Bool) :
    valsCountP (matchesCat k cat) ht.values ≤ 1 := by
  refine valsCountP_le_one _ _ (k.hash % ht.size) ?_ ?_
  · intro j hj
    refine List.countP_eq_zero.mpr ?_
    intro a ha hpa
    obtain ⟨hak, _⟩ : a.key = k ∧ a.isPending = cat := by
      simpa [matchesCat, StoredValue.hasKey] using hpa
    have hplace := h.placed j a ha
    rw [hak] at hplace
    exact hj hplace.symm
  · rcases cat with _ | _
    · exact (h.uniq (k.hash % ht.size) k).2
    · exact (h.uniq (k.hash % ht.size) k).1

theorem Inv.resizeToOp {ht : HashTable} (h : Inv ht) (newSize : Nat) (hpos : 0 < newSize) :
    Inv (ht.resizeTo newSize).1 := by
  by_cases hact : ht.activeState
  · by_cases h1 : newSize > intMax
    · have heq : (ht.resizeTo newSize).1 = ht := by simp [HashTable.resizeTo, hact, h1]
      rw [heq]; exact h
    · by_cases h2 : newSize == ht.size
      · have heq : (ht.resizeTo newSize).1 = ht := by simp [HashTable.resizeTo, hact, h1, h2]
        rw [heq]; exact h
      · by_cases h3 : ht.visitors > 0
        · have heq : (ht.resizeTo newSize).1 = ht := by
            simp [HashTable.resizeTo, hact, h1, h2, h3]
          rw [heq]; exact h
        · have heq : (ht.resizeTo newSize).1 =
              { ht with size := newSize, values := rebucket newSize ht.values,
                        numResizes := ht.numResizes + 1 } := by
            simp [HashTable.resizeTo, hact, h1, h2, h3]
          rw [heq]
          refine ⟨?_, ?_, ?_, ?_⟩
          · simp [rebucket_length]
          · exact hpos
          · intro b sv hsv
            exact rebucket_placed newSize hpos ht.values b sv hsv
          · intro b k
            constructor
            · show ((rebucket newSize ht.values).getD b []).countP (matchesCat k true) ≤ 1
              rw [rebucket_countP_getD newSize _ b hpos ht.values]
              calc valsCountP (fun v => matchesCat k true v && (v.key.hash % newSize == b))
                    ht.values
                  ≤ valsCountP (matchesCat k true) ht.values :=
                    valsCountP_mono (fun v hv => by
                      rw [Bool.and_eq_true] at hv
                      exact hv.1) ht.values
                _ ≤ 1 := h.catCount_le_one k true
            · show ((rebucket newSize ht.values).getD b []).countP (matchesCat k false) ≤ 1
              rw [rebucket_countP_getD newSize _ b hpos ht.values]
              calc valsCountP (fun v => matchesCat k false v && (v.key.hash % newSize == b))
                    ht.values
                  ≤ valsCountP (matchesCat k false) ht.values :=
                    valsCountP_mono (fun v hv => by
                      rw [Bool.and_eq_true] at hv
                      exact hv.1) ht.values
                _ ≤ 1 := h.catCount_le_one k false
  · have heq : (ht.resizeTo newSize).1 = ht := by simp [HashTable.resizeTo, hact]
    rw [heq]; exact h

/-! ## Positivity of the automatic size choice -/

theorem primeWalk_le_posPrefix (target : Int) :
    ∀ l : List Int, primeWalk target l ≤ (l.takeWhile (fun p => decide (0 < p))).length := by
  intro l
  induction l with
  | nil => simp [primeWalk]
  | cons p rest ih =>
      by_cases hc : p > 0 ∧ p < target
      · rw [List.takeWhile_cons]
        have h0 : decide (0 < p) = true := by simp [hc.1]
        rw [h0]
        have hw : primeWalk target (p :: rest) = primeWalk target rest + 1 := by
          simp [primeWalk, hc]
        rw [hw]
        simp only [if_true, List.length_cons]
        omega
      · simp [primeWalk, hc]

theorem primeWalk_le_30 (target : Int) : primeWalk target primeSizeTable ≤ 30 := by
  have h := primeWalk_le_posPrefix target primeSizeTable
  have h2 : (primeSizeTable.takeWhile (fun p => decide (0 < p))).length = 30 := by decide
  omega

theorem primeTable_pos_le_29 : ∀ i, i ≤ 29 → 3 ≤ primeSizeTable.getD i 0 := by decide

theorem primeTable_30 : primeSizeTable.getD 30 0 = -1 := by decide

theorem chooseFromWalk_pos (ni initialSize size i : Nat) (hsz : 0 < size) (hi : i ≤ 30) :
    0 < chooseFromWalk ni initialSize size i := by
  by_cases c1 : primeSizeTable.getD i 0 = -1
  · have hi29 : ¬ i ≤ 29 := by
      intro hle
      have := primeTable_pos_le_29 i hle
      omega
    have hi30 : i = 30 := by omega
    have h29 := primeTable_pos_le_29 29 (by omega)
    simp only [chooseFromWalk, c1, if_true]
    subst hi30
    have he : (30 : Nat) - 1 = 29 := rfl
    rw [he]
    omega
  · have hi29 : i ≤ 29 := by
      rcases Nat.lt_or_ge i 30 with hlt | hge
      · omega
      · have : i = 30 := by omega
        rw [this] at c1
        exact absurd primeTable_30 c1
    have h3 := primeTable_pos_le_29 i hi29
    by_cases c2 : primeSizeTable.getD i 0 < (initialSize : Int)
    · simp only [chooseFromWalk, c1, c2, if_false, if_true]
      omega
    · by_cases c3 : i = 0
      · subst c3
        simp only [chooseFromWalk, c1, c2, if_false, if_true]
        decide
      · by_cases c4 : (size : Int) = primeSizeTable.getD (i - 1) 0 ∨
            (size : Int) = primeSizeTable.getD i 0
        · simp only [chooseFromWalk, c1, c2, c3, c4, if_false, if_true]
          exact hsz
        · simp only [chooseFromWalk, c1, c2, c3, c4, if_false, nearestSize]
          have hlow := primeTable_pos_le_29 (i - 1) (by omega)
          by_cases c5 : sizeDistance ni (primeSizeTable.getD (i - 1) 0).toNat <
              sizeDistance (primeSizeTable.getD i 0).toNat ni
          · rw [if_pos c5]
            omega
          · rw [if_neg c5]
            omega

theorem chooseNewSize_pos (ni initialSize size : Nat) (hsz : 0 < size) :
    0 < chooseNewSize ni initialSize size :=
  chooseFromWalk_pos ni initialSize size _ hsz (primeWalk_le_30 _)

theorem Inv.resizeAutoOp {ht : HashTable} (h : Inv ht) : Inv ht.resizeAuto.1 :=
  h.resizeToOp _ (chooseNewSize_pos _ _ _ h.sizePos)

theorem findInner_ok {ht : HashTable} {k : DocKey} {b : Nat} {ci pi : Option Nat}
    (h : ht.findInner k = .ok (b, ci, pi)) :
    ht.activeState = true ∧ b = ht.getLockedBucket k ∧
    scanChain k (ht.chainAt (ht.getLockedBucket k)) = .ok (ci, pi) := by
  by_cases hact : ht.activeState
  · rcases hscan : scanChain k (ht.chainAt (ht.getLockedBucket k)) with e | ⟨ci2, pi2⟩
    · simp [HashTable.findInner, hact, hscan] at h
    · have heq : ht.findInner k = .ok (ht.getLockedBucket k, ci2, pi2) := by
        simp [HashTable.findInner, hact, hscan]
      rw [heq] at h
      obtain ⟨hb, hc, hp⟩ : ht.getLockedBucket k = b ∧ ci2 = ci ∧ pi2 = pi := by
        simpa using h
      exact ⟨hact, hb.symm, by rw [hc, hp]⟩
  · simp [HashTable.findInner, hact] at h

theorem Inv.warmupTailOp {ht : HashTable} (h : Inv ht) (b j : Nat)
    (eject keyMetaDataOnly : Bool) (policy : EvictionPolicy) :
    Inv (ht.insertFromWarmupTail b j eject keyMetaDataOnly policy).1 := by
  rcases hw : (ht.chainAt b)[j]? with _ | v
  · have heq : (ht.insertFromWarmupTail b j eject keyMetaDataOnly policy).1 = ht := by
      simp [HashTable.insertFromWarmupTail, hw]
    rw [heq]; exact h
  · have hX : Inv (ht.setChain b ((ht.chainAt b).set j v.markClean)) := by
      refine h.setSameClass b j _ ?_
      intro w2 hw2
      rw [hw] at hw2
      obtain rfl := Option.some.inj hw2
      simp [StoredValue.markClean, StoredValue.isPending]
    by_cases hej : eject && !keyMetaDataOnly
    · have heq : (ht.insertFromWarmupTail b j eject keyMetaDataOnly policy).1 =
          ((ht.setChain b ((ht.chainAt b).set j
            v.markClean)).unlocked_ejectItem v.markClean policy).1 := by
        simp [HashTable.insertFromWarmupTail, hw, hej]
      rw [heq]
      exact hX.ejectOp v.markClean policy
    · have heq : (ht.insertFromWarmupTail b j eject keyMetaDataOnly policy).1 =
          ht.setChain b ((ht.chainAt b).set j v.markClean) := by
        simp [HashTable.insertFromWarmupTail, hw, hej]
      rw [heq]
      exact hX

theorem Inv.warmupExistingOp {ht : HashTable} (h : Inv ht) (b j : Nat) (itm : Item)
    (eject : Bool) (policy : EvictionPolicy) :
    Inv (ht.insertFromWarmupExisting b j itm eject policy).1 := by
  rcases hw : (ht.chainAt b)[j]? with _ | v
  · have heq : (ht.insertFromWarmupExisting b j itm eject policy).1 = ht := by
      simp [HashTable.insertFromWarmupExisting, hw]
    rw [heq]; exact h
  · by_cases hres : !v.isResident
    · rcases hr : ht.unlocked_restoreValue b j itm with ⟨ht2, ok⟩
      have h2 : Inv ht2 := by
        have := h.restoreValueOp b j itm
        rw [hr] at this
        exact this
      rcases ok with _ | _
      · have heq : (ht.insertFromWarmupExisting b j itm eject policy).1 = ht2 := by
          simp [HashTable.insertFromWarmupExisting, hw, hres, hr]
        rw [heq]; exact h2
      · have heq : (ht.insertFromWarmupExisting b j itm eject policy).1 =
            (ht2.insertFromWarmupTail b j eject false policy).1 := by
          simp [HashTable.insertFromWarmupExisting, hw, hres, hr]
        rw [heq]
        exact h2.warmupTailOp b j eject false policy
    · have heq : (ht.insertFromWarmupExisting b j itm eject policy).1 =
          (ht.insertFromWarmupTail b j eject false policy).1 := by
        simp [HashTable.insertFromWarmupExisting, hw, hres]
      rw [heq]
      exact h.warmupTailOp b j eject false policy

theorem Inv.setHeadOp {ht : HashTable} (h : Inv ht) (b : Nat) :
    Inv (ht.setHeadNewCacheItem b) := by
  rcases hw : (ht.chainAt b)[0]? with _ | w
  · have heq : ht.setHeadNewCacheItem b = ht := by
      simp [HashTable.setHeadNewCacheItem, hw]
    rw [heq]; exact h
  · have heq : ht.setHeadNewCacheItem b =
        ht.setChain b ((ht.chainAt b).set 0 { w with newCacheItem := false }) := by
      simp [HashTable.setHeadNewCacheItem, hw]
    rw [heq]
    refine h.setSameClass b 0 _ ?_
    intro w2 hw2
    rw [hw] at hw2
    obtain rfl := Option.some.inj hw2
    exact ⟨rfl, rfl⟩

theorem addNew_head {ht : HashTable} {b : Nat} {itm : Item} {ht1 : HashTable}
    {v : StoredValue} (hr : ht.unlocked_addNewStoredValue b itm = (ht1, .ok v))
    (hb : b < ht.values.length) :
    v = mkStoredValue itm ∧ (ht1.chainAt b)[0]? = some v := by
  by_cases hact : ht.activeState
  · have heq : ht.unlocked_addNewStoredValue b itm =
        ({ ht.setChain b (mkStoredValue itm :: ht.chainAt b) with
           valueStats := ht.valueStats.epilogue (Statistics.prologue none)
             (some (mkStoredValue itm)) }, .ok (mkStoredValue itm)) := by
      simp [HashTable.unlocked_addNewStoredValue, hact]
    rw [heq] at hr
    have hv : mkStoredValue itm = v := by
      have := congrArg Prod.snd hr
      simpa using this
    have hht : ht1 = { ht.setChain b (mkStoredValue itm :: ht.chainAt b) with
        valueStats := ht.valueStats.epilogue (Statistics.prologue none)
          (some (mkStoredValue itm)) } := by
      have := congrArg Prod.fst hr
      simpa using this.symm
    refine ⟨hv.symm, ?_⟩
    rw [hht]
    show (((ht.setChain b (mkStoredValue itm :: ht.chainAt b))).chainAt b)[0]? = some v
    rw [chainAt_setChain_self ht b _ hb]
    rw [← hv]
    simp
  · simp [HashTable.unlocked_addNewStoredValue, hact] at hr

theorem Inv.warmupNewOp {ht : HashTable} (h : Inv ht) (b : Nat) (v : StoredValue)
    (eject keyMetaDataOnly : Bool) (policy : EvictionPolicy)
    (hv : (ht.chainAt b)[0]? = some v) :
    Inv (ht.insertFromWarmupNew b v eject keyMetaDataOnly policy).1 := by
  by_cases hmo : keyMetaDataOnly
  · have hX1 : Inv { ht.setChain b ((ht.chainAt b).set 0 v.markNotResident) with
        valueStats := ht.valueStats.epilogue (Statistics.prologue (some v))
          (some v.markNotResident) } := by
      refine (h.setSameClass b 0 _ ?_).congr rfl rfl
      intro w2 hw2
      rw [hv] at hw2
      obtain rfl := Option.some.inj hw2
      exact ⟨rfl, rfl⟩
    have heq : (ht.insertFromWarmupNew b v eject keyMetaDataOnly policy).1 =
        ((({ ht.setChain b ((ht.chainAt b).set 0 v.markNotResident) with
            valueStats := ht.valueStats.epilogue (Statistics.prologue (some v))
              (some v.markNotResident) } : HashTable).setHeadNewCacheItem
                b).insertFromWarmupTail b 0 eject keyMetaDataOnly policy).1 := by
      simp [HashTable.insertFromWarmupNew, hmo]
    rw [heq]
    exact (hX1.setHeadOp b).warmupTailOp b 0 eject keyMetaDataOnly policy
  · have heq : (ht.insertFromWarmupNew b v eject keyMetaDataOnly policy).1 =
        ((ht.setHeadNewCacheItem b).insertFromWarmupTail b 0 eject
          keyMetaDataOnly policy).1 := by
      simp [HashTable.insertFromWarmupNew, hmo]
    rw [heq]
    exact (h.setHeadOp b).warmupTailOp b 0 eject keyMetaDataOnly policy

theorem Inv.insertFromWarmupOp {ht : HashTable} (h : Inv ht) (itm : Item)
    (eject keyMetaDataOnly : Bool) (policy : EvictionPolicy) :
    Inv (ht.insertFromWarmup itm eject keyMetaDataOnly policy).1 := by
  rcases hfi : ht.findInner itm.key with e | ⟨b, ci, pi⟩
  · have heq : (ht.insertFromWarmup itm eject keyMetaDataOnly policy).1 = ht := by
      simp [HashTable.insertFromWarmup, hfi]
    rw [heq]; exact h
  · obtain ⟨hact, hb, hscan⟩ := findInner_ok hfi
    subst hb
    rcases hch : (if itm.isCommitted then ci else pi) with _ | j
    · -- no matching entry of the item's category: insert a new one
      have habs : (ht.chainAt (ht.getLockedBucket itm.key)).countP
          (matchesCat itm.key itm.isPending) = 0 := by
        by_cases hip : itm.isPending
        · have hcm : itm.isCommitted = false := by simp [Item.isCommitted, hip]
          rw [hcm] at hch
          simp only [Bool.false_eq_true, if_false] at hch
          rw [hip]
          exact (scanChain_none_count hscan).2 hch
        · have hipf : itm.isPending = false := by simpa using hip
          have hcm : itm.isCommitted = true := by simp [Item.isCommitted, hipf]
          rw [hcm] at hch
          simp only [if_true] at hch
          rw [hipf]
          exact (scanChain_none_count hscan).1 hch
      rcases hr : ht.unlocked_addNewStoredValue (ht.getLockedBucket itm.key) itm
        with ⟨ht1, r1⟩
      have h1 : Inv ht1 := by
        have := h.addNew itm habs
        rw [hr] at this
        exact this
      rcases r1 with e1 | v
      · have heq : (ht.insertFromWarmup itm eject keyMetaDataOnly policy).1 = ht1 := by
          simp [HashTable.insertFromWarmup, hfi, hch, hr]
        rw [heq]; exact h1
      · obtain ⟨_, hhead⟩ := addNew_head hr
          (by rw [h.lenEq]; exact Nat.mod_lt _ h.sizePos)
        have heq : (ht.insertFromWarmup itm eject keyMetaDataOnly policy).1 =
            (ht1.insertFromWarmupNew (ht.getLockedBucket itm.key) v eject
              keyMetaDataOnly policy).1 := by
          simp [HashTable.insertFromWarmup, hfi, hch, hr]
        rw [heq]
        exact h1.warmupNewOp (ht.getLockedBucket itm.key) v eject keyMetaDataOnly
          policy hhead
    · -- an entry of the item's category exists at position j
      by_cases hmo : keyMetaDataOnly
      · have heq : (ht.insertFromWarmup itm eject keyMetaDataOnly policy).1 = ht := by
          simp [HashTable.insertFromWarmup, hfi, hch, hmo]
        rw [heq]; exact h
      · rcases hw : (ht.chainAt (ht.getLockedBucket itm.key))[j]? with _ | v
        · have heq : (ht.insertFromWarmup itm eject keyMetaDataOnly policy).1 = ht := by
            simp [HashTable.insertFromWarmup, hfi, hch, hmo, hw]
          rw [heq]; exact h
        · by_cases hcas : v.cas ≠ itm.cas
          · by_cases hcas0 : v.cas = 0
            · have hX : Inv (ht.setChain (ht.getLockedBucket itm.key)
                  ((ht.chainAt (ht.getLockedBucket itm.key)).set j
                    (v.fillFromItem itm))) := by
                refine h.setSameClass _ j _ ?_
                intro w2 hw2
                rw [hw] at hw2
                obtain rfl := Option.some.inj hw2
                exact ⟨rfl, rfl⟩
              have heq : (ht.insertFromWarmup itm eject keyMetaDataOnly policy).1 =
                  ((ht.setChain (ht.getLockedBucket itm.key)
                    ((ht.chainAt (ht.getLockedBucket itm.key)).set j
                      (v.fillFromItem itm))).insertFromWarmupExisting
                    (ht.getLockedBucket itm.key) j itm eject policy).1 := by
                have hne : ¬((0 : Nat) = itm.cas) := by omega
                simp [HashTable.insertFromWarmup, hfi, hch, hmo, hw, hcas, hcas0, hne]
              rw [heq]
              exact hX.warmupExistingOp _ j itm eject policy
            · have heq : (ht.insertFromWarmup itm eject keyMetaDataOnly policy).1 = ht := by
                simp [HashTable.insertFromWarmup, hfi, hch, hmo, hw, hcas, hcas0]
              rw [heq]; exact h
          · have heq : (ht.insertFromWarmup itm eject keyMetaDataOnly policy).1 =
                (ht.insertFromWarmupExisting (ht.getLockedBucket itm.key) j itm
                  eject policy).1 := by
              simp [HashTable.insertFromWarmup, hfi, hch, hmo, hw, hcas]
            rw [heq]
            exact h.warmupExistingOp _ j itm eject policy

theorem replicate_getD_nil (n b : Nat) :
    (List.replicate n ([] : List StoredValue)).getD b [] = [] := by
  cases Nat.lt_or_ge b n with
  | inl hlt => simp [List.getD_eq_getElem?_getD, List.getElem?_replicate, hlt]
  | inr hge =>
      simp [List.getD_eq_getElem?_getD,
            List.getElem?_eq_none
              (by simpa using hge :
                (List.replicate n ([] : List StoredValue)).length ≤ b)]

theorem Inv.initTable (n : Nat) (hn : 0 < n) : Inv (HashTable.init n) := by
  refine ⟨by simp [HashTable.init], hn, ?_, ?_⟩
  · intro b sv hsv
    have hnil : (HashTable.init n).chainAt b = [] := replicate_getD_nil n b
    rw [hnil] at hsv
    simp at hsv
  · intro b k
    have hnil : (HashTable.init n).chainAt b = [] := replicate_getD_nil n b
    rw [hnil]
    simp

/-- Every operation of the step relation preserves the invariant. -/
theorem Inv.step {ht ht2 : HashTable} (h : Inv ht) (hs : Step ht ht2) : Inv ht2 := by
  cases hs with
  | set itm coin => exact h.setOp itm coin
  | update itm coin j hj => exact h.updateSV itm coin j hj
  | addNew itm habs => exact h.addNew itm habs
  | softDelete b j o s => exact h.softDeleteOp b j o s
  | del b k => exact h.delOp b k
  | release b k => exact h.releaseOp b k
  | eject sv p => exact h.ejectOp sv p
  | warmup itm e m p => exact h.insertFromWarmupOp itm e m p
  | restoreVal b j itm => exact h.restoreValueOp b j itm
  | restoreMeta b j itm => exact h.restoreMetaOp b j itm
  | resize ns hpos => exact h.resizeToOp ns hpos
  | resizeAuto => exact h.resizeAutoOp
  | read k tr wd coin => exact h.readOp k tr wd coin

/-- The invariant holds in every reachable state. -/
theorem Inv.reachable {n : Nat} (hn : 0 < n) {ht : HashTable} (h : Reachable n ht) :
    Inv ht := by
  induction h with
  | refl => exact Inv.initTable n hn
  | tail _ hstep ih => exact ih.step hstep

/-- C1: In every HashTable state reachable by any sequence of operations
(set, unlocked_updateStoredValue, unlocked_addNewStoredValue,
unlocked_softDelete, unlocked_del/unlocked_release, resize,
unlocked_ejectItem, insertFromWarmup, restore), every bucket chain holds
at most one committed and at most one pending entry per (key,
collection_id), and consequently the `Expects` assertions of `findInner`
never fire (findInner never fails with an assertion error).  The
unlocked operations are taken at their call contracts: the update target
is the value `findForWrite` selected, a new value is only linked when no
entry of its category exists for its key, and resize receives a positive
size (C++ `hash % newSize` is undefined for zero). -/
theorem C1_dual_entry_uniqueness (n : Nat) (hn : 0 < n) {ht : HashTable}
    (hr : Reachable n ht) (b : Nat) (k : DocKey) :
    ((ht.chainAt b).countP (matchesCat k false) ≤ 1 ∧
     (ht.chainAt b).countP (matchesCat k true) ≤ 1) ∧
    ht.findInner k ≠ .error HTError.expectsFailed := by
  have hInv := Inv.reachable hn hr
  refine ⟨⟨(hInv.uniq b k).2, (hInv.uniq b k).1⟩, ?_⟩
  by_cases hact : ht.activeState
  · have hok := (scanChainGo_ok_iff k (ht.chainAt (ht.getLockedBucket k)) 0 none none).mpr
      (by
        constructor
        · simpa using (hInv.uniq (ht.getLockedBucket k) k).2
        · simpa using (hInv.uniq (ht.getLockedBucket k) k).1)
    obtain ⟨⟨ci, pi⟩, hscan⟩ := hok
    have hscan2 : scanChain k (ht.chainAt (ht.getLockedBucket k)) = .ok (ci, pi) := hscan
    have heq : ht.findInner k = .ok (ht.getLockedBucket k, ci, pi) := by
      simp [HashTable.findInner, hact, hscan2]
    rw [heq]
    simp
  · have heq : ht.findInner k = .error .logicError := by
      simp [HashTable.findInner, hact]
    rw [heq]
    simp

/-- Witness for C1 at a concrete reachable state: the table of size 3
after one `set` of a committed item. -/
theorem C1_dual_entry_uniqueness_witness :
    ((((HashTable.init 3).set
        { key := ⟨5, 0⟩, cas := 7, revSeqno := 1, bySeqno := 1, flags := 0,
          exptime := 0, datatype := 0, committed := .committedViaMutation,
          deleted := false, deleteSource := .explicitDelete, valSize := 4,
          metaSize := 2, uncompressedSize := 4 } true).1.chainAt 2).countP
            (matchesCat ⟨5, 0⟩ false) ≤ 1 ∧
     ((((HashTable.init 3).set
        { key := ⟨5, 0⟩, cas := 7, revSeqno := 1, bySeqno := 1, flags := 0,
          exptime := 0, datatype := 0, committed := .committedViaMutation,
          deleted := false, deleteSource := .explicitDelete, valSize := 4,
          metaSize := 2, uncompressedSize := 4 } true).1.chainAt 2).countP
            (matchesCat ⟨5, 0⟩ true) ≤ 1)) ∧
    ((HashTable.init 3).set
        { key := ⟨5, 0⟩, cas := 7, revSeqno := 1, bySeqno := 1, flags := 0,
          exptime := 0, datatype := 0, committed := .committedViaMutation,
          deleted := false, deleteSource := .explicitDelete, valSize := 4,
          metaSize := 2, uncompressedSize := 4 } true).1.findInner ⟨5, 0⟩ ≠
      .error HTError.expectsFailed :=
  C1_dual_entry_uniqueness 3 (by decide)
    (Relation.ReflTransGen.single (Step.set (HashTable.init 3)
      { key := ⟨5, 0⟩, cas := 7, revSeqno := 1, bySeqno := 1, flags := 0,
        exptime := 0, datatype := 0, committed := .committedViaMutation,
        deleted := false, deleteSource := .explicitDelete, valSize := 4,
        metaSize := 2, uncompressedSize := 4 } true)) 2 ⟨5, 0⟩

/-! ## C2: statistics delta correctness -/

/-- The "valid, non-resident" category of the epilogue
(hash_table.cc lines 450-454). -/
def propNonResident (p : StoredValueProperties) : Bool :=
  p.isValid && (!p.isResident && !p.isDeleted && !p.isTempItem)

/-- The "valid, non-temporary" category (lines 464-465). -/
def propNonTemp (p : StoredValueProperties) : Bool := p.isValid && !p.isTempItem

/-- The "valid, prepared" category (lines 475-476). -/
def propPrepared (p : StoredValueProperties) : Bool := p.isValid && p.isPreparedSyncWrite

/-- The "deleted, neither system nor prepared" category (lines 485-488). -/
def propDeleted (p : StoredValueProperties) : Bool :=
  p.isDeleted && !p.isSystemItem && !p.isPreparedSyncWrite

/-- The datatype-tracked category: valid, non-temp, non-deleted,
non-prepared (lines 495, 498). -/
def propDatatyped (p : StoredValueProperties) : Bool :=
  propNonTemp p && !p.isDeleted && !p.isPreparedSyncWrite

/-- C2: Every counter changes by exactly the signed delta of its
category between the prologue and epilogue snapshots (a null pointer on
either side denoting "no such value": all category predicates false and
sizes zero): cache_size and mem_size by Δsize; uncompressed_mem_size by
Δuncompressed_size; num_non_resident_items by
Δ[valid ∧ ¬resident ∧ ¬deleted ∧ ¬temp]; num_temp_items by Δtemp;
num_items by Δ[valid ∧ ¬temp]; num_system_items by Δsystem;
num_prepared_sync_writes by Δ[valid ∧ prepared]; num_deleted_items by
Δ[deleted ∧ ¬system ∧ ¬prepared]; and datatype_counts is decremented at
the pre datatype and incremented at the post datatype only for valid,
non-temp, non-deleted, non-prepared values. -/
theorem C2_stats_epilogue_deltas (s : Statistics) (pre post : Option StoredValue) (d : Nat) :
    (s.epilogue (Statistics.prologue pre) post).cacheSize =
      s.cacheSize + (((svProperties post).size : Int) - ((svProperties pre).size : Int)) ∧
    (s.epilogue (Statistics.prologue pre) post).memSize =
      s.memSize + (((svProperties post).size : Int) - ((svProperties pre).size : Int)) ∧
    (s.epilogue (Statistics.prologue pre) post).uncompressedMemSize =
      s.uncompressedMemSize + (((svProperties post).uncompressedSize : Int) -
        ((svProperties pre).uncompressedSize : Int)) ∧
    (s.epilogue (Statistics.prologue pre) post).numNonResidentItems =
      s.numNonResidentItems + boolDelta (propNonResident (svProperties post))
        (propNonResident (svProperties pre)) ∧
    (s.epilogue (Statistics.prologue pre) post).numTempItems =
      s.numTempItems + boolDelta (svProperties post).isTempItem
        (svProperties pre).isTempItem ∧
    (s.epilogue (Statistics.prologue pre) post).numItems =
      s.numItems + boolDelta (propNonTemp (svProperties post))
        (propNonTemp (svProperties pre)) ∧
    (s.epilogue (Statistics.prologue pre) post).numSystemItems =
      s.numSystemItems + boolDelta (svProperties post).isSystemItem
        (svProperties pre).isSystemItem ∧
    (s.epilogue (Statistics.prologue pre) post).numPreparedSyncWrites =
      s.numPreparedSyncWrites + boolDelta (propPrepared (svProperties post))
        (propPrepared (svProperties pre)) ∧
    (s.epilogue (Statistics.prologue pre) post).numDeletedItems =
      s.numDeletedItems + boolDelta (propDeleted (svProperties post))
        (propDeleted (svProperties pre)) ∧
    (s.epilogue (Statistics.prologue pre) post).datatypeCounts d =
      s.datatypeCounts d -
        (if propDatatyped (svProperties pre) ∧ d = (svProperties pre).datatype
          then 1 else 0) +
        (if propDatatyped (svProperties post) ∧ d = (svProperties post).datatype
          then 1 else 0) := by
  simp only [Statistics.epilogue, Statistics.prologue, propNonResident, propNonTemp,
    propPrepared, propDeleted, propDatatyped]
  refine ⟨?_, ?_, ?_, ?_, ?_, ?_, ?_, ?_, ?_, ?_⟩ <;>
    · simp only [apply_ite Statistics.cacheSize, apply_ite Statistics.memSize,
        apply_ite Statistics.uncompressedMemSize,
        apply_ite Statistics.numNonResidentItems, apply_ite Statistics.numTempItems,
        apply_ite Statistics.numItems, apply_ite Statistics.numSystemItems,
        apply_ite Statistics.numPreparedSyncWrites, apply_ite Statistics.numDeletedItems,
        apply_ite Statistics.datatypeCounts, ite_apply, ite_self]
      split_ifs <;> simp_all [boolDelta]

/-! ## C3 / C4: resize -/

/-- The identifying tuple of a stored value for the resize-preservation
property. -/
def svTuple (sv : StoredValue) : DocKey × Nat × CommittedState :=
  (sv.key, sv.cas, sv.committed)

theorem countP_flatten (p : StoredValue → Bool) :
    ∀ vals : List (List StoredValue), vals.flatten.countP p = valsCountP p vals := by
  intro vals
  induction vals with
  | nil => rfl
  | cons ch rest ih => simp [List.flatten_cons, List.countP_append, valsCountP_cons, ih]

/-- Rebucketing permutes the values of the table. -/
theorem rebucket_flatten_perm (ns : Nat) (hns : 0 < ns) (vals : List (List StoredValue)) :
    (rebucket ns vals).flatten.Perm vals.flatten := by
  refine List.perm_iff_count.mpr fun a => ?_
  rw [List.count_eq_countP, List.count_eq_countP, countP_flatten, countP_flatten,
      rebucket_valsCountP ns _ hns vals]

/-- The state and result of `resize(size_t)` when all guards pass. -/
theorem resizeTo_active (ht : HashTable) (newSize : Nat) (hact : ht.activeState = true)
    (hcap : newSize ≤ intMax) (hne : newSize ≠ ht.size) (hvis : ht.visitors = 0) :
    ht.resizeTo newSize =
      ({ ht with size := newSize, values := rebucket newSize ht.values,
                 numResizes := ht.numResizes + 1 }, .ok ()) := by
  have h1 : ¬ newSize > intMax := by omega
  have h2 : ¬ (newSize == ht.size) = true := by simpa using hne
  have h3 : ¬ ht.visitors > 0 := by omega
  simp [HashTable.resizeTo, hact, h1, h2, h3]

/-- C3: whenever `resize(newSize)` performs the rebucketing (active
table, `newSize` within the signed-int cap, different from the current
size, no visitors in flight — and positive, as C++ `hash % newSize` is
undefined for zero), the multiset of `(key, cas, committed_state)`
tuples over all bucket chains is preserved, and every value ends up in
bucket `hash mod newSize`. -/
theorem C3_resize_preservation (ht : HashTable) (newSize : Nat)
    (hact : ht.activeState = true) (hcap : newSize ≤ intMax) (hne : newSize ≠ ht.size)
    (hvis : ht.visitors = 0) (hpos : 0 < newSize) :
    ((ht.resizeTo newSize).1.values.flatten.map svTuple).Perm
      (ht.values.flatten.map svTuple) ∧
    (ht.resizeTo newSize).1.size = newSize ∧
    (∀ b sv, sv ∈ (ht.resizeTo newSize).1.chainAt b → sv.key.hash % newSize = b) := by
  rw [resizeTo_active ht newSize hact hcap hne hvis]
  refine ⟨(rebucket_flatten_perm newSize hpos ht.values).map svTuple, rfl, ?_⟩
  intro b sv hsv
  exact rebucket_placed newSize hpos ht.values b sv hsv

/-- Witness for C3: a two-bucket table with one value, resized to 3. -/
theorem C3_resize_preservation_witness :
    ((((HashTable.init 2).set
        { key := ⟨5, 0⟩, cas := 9, revSeqno := 1, bySeqno := 1, flags := 0,
          exptime := 0, datatype := 0, committed := .committedViaMutation,
          deleted := false, deleteSource := .explicitDelete, valSize := 4,
          metaSize := 2, uncompressedSize := 4 } true).1.resizeTo
            3).1.values.flatten.map svTuple).Perm
      (((HashTable.init 2).set
        { key := ⟨5, 0⟩, cas := 9, revSeqno := 1, bySeqno := 1, flags := 0,
          exptime := 0, datatype := 0, committed := .committedViaMutation,
          deleted := false, deleteSource := .explicitDelete, valSize := 4,
          metaSize := 2, uncompressedSize := 4 } true).1.values.flatten.map svTuple) ∧
    ((((HashTable.init 2).set
        { key := ⟨5, 0⟩, cas := 9, revSeqno := 1, bySeqno := 1, flags := 0,
          exptime := 0, datatype := 0, committed := .committedViaMutation,
          deleted := false, deleteSource := .explicitDelete, valSize := 4,
          metaSize := 2, uncompressedSize := 4 } true).1.resizeTo 3).1.size = 3) :=
  by
    have h := C3_resize_preservation
      (((HashTable.init 2).set
        { key := ⟨5, 0⟩, cas := 9, revSeqno := 1, bySeqno := 1, flags := 0,
          exptime := 0, datatype := 0, committed := .committedViaMutation,
          deleted := false, deleteSource := .explicitDelete, valSize := 4,
          metaSize := 2, uncompressedSize := 4 } true).1) 3
      (by decide) (by decide) (by decide) (by decide) (by decide)
    exact ⟨h.1, h.2.1⟩

/-- C4: resize no-op guards on an active table: when the new size
exceeds the platform signed-int cap, or equals the current size, or
visitors are in flight, `resize` returns leaving the whole table state
(in particular size, every bucket chain and num_resizes) unchanged; and
with no visitors in flight (and the other guards passing) the resize is
not blocked: it happens, incrementing num_resizes. -/
theorem C4_resize_noop_guards (ht : HashTable) (newSize : Nat)
    (hact : ht.activeState = true) :
    (newSize > intMax → ht.resizeTo newSize = (ht, .ok ())) ∧
    (newSize = ht.size → ht.resizeTo newSize = (ht, .ok ())) ∧
    (ht.visitors > 0 → ht.resizeTo newSize = (ht, .ok ())) ∧
    (newSize ≤ intMax → newSize ≠ ht.size → ht.visitors = 0 →
      (ht.resizeTo newSize).1.numResizes = ht.numResizes + 1 ∧
      (ht.resizeTo newSize).1.size = newSize) := by
  refine ⟨?_, ?_, ?_, ?_⟩
  · intro h1
    simp [HashTable.resizeTo, hact, h1]
  · intro h2
    have h1 : ¬ newSize > intMax ∨ newSize > intMax := by omega
    rcases h1 with h1 | h1
    · simp [HashTable.resizeTo, hact, h1, h2]
    · simp [HashTable.resizeTo, hact, h1]
  · intro h3
    by_cases h1 : newSize > intMax
    · simp [HashTable.resizeTo, hact, h1]
    · by_cases h2 : (newSize == ht.size) = true
      · simp [HashTable.resizeTo, hact, h1, h2]
      · simp [HashTable.resizeTo, hact, h1, h2, h3]
  · intro hcap hne hvis
    rw [resizeTo_active ht newSize hact hcap hne hvis]
    exact ⟨rfl, rfl⟩

/-- Witness for C4 at a concrete table: guards (a) too-large, (b) equal
size, (c) visitors in flight, and the successful retry with no
visitors. -/
theorem C4_resize_noop_guards_witness :
    ((HashTable.init 3).resizeTo 2147483648 = (HashTable.init 3, .ok ()) ∧
     (HashTable.init 3).resizeTo 3 = (HashTable.init 3, .ok ())) ∧
    ({ HashTable.init 3 with visitors := 1 }.resizeTo 5 =
      ({ HashTable.init 3 with visitors := 1 }, .ok ())) ∧
    (((HashTable.init 3).resizeTo 5).1.numResizes = 1 ∧
     ((HashTable.init 3).resizeTo 5).1.size = 5) := by
  have h1 := C4_resize_noop_guards (HashTable.init 3) 2147483648 (by decide)
  have h2 := C4_resize_noop_guards (HashTable.init 3) 3 (by decide)
  have h3 := C4_resize_noop_guards { HashTable.init 3 with visitors := 1 } 5 (by decide)
  have h4 := C4_resize_noop_guards (HashTable.init 3) 5 (by decide)
  exact ⟨⟨h1.1 (by decide), h2.2.1 (by decide)⟩,
         h3.2.2.1 (by decide),
         h4.2.2.2 (by decide) (by decide) (by decide)⟩

/-! ## C5: automatic size selection -/

theorem primeWalk_lt (target : Int) :
    ∀ (l : List Int) (j : Nat), j < primeWalk target l →
      0 < l.getD j 0 ∧ l.getD j 0 < target := by
  intro l
  induction l with
  | nil => intro j hj; simp [primeWalk] at hj
  | cons p rest ih =>
      intro j hj
      by_cases hc : p > 0 ∧ p < target
      · have hw : primeWalk target (p :: rest) = primeWalk target rest + 1 := by
          simp [primeWalk, hc]
        rw [hw] at hj
        cases j with
        | zero => simpa using hc
        | succ j =>
            rw [List.getD_cons_succ]
            exact ih j (by omega)
      · have hw : primeWalk target (p :: rest) = 0 := by
          simp [primeWalk, hc]
        rw [hw] at hj
        omega

theorem primeWalk_stop (target : Int) :
    ∀ l : List Int, primeWalk target l < l.length →
      ¬(0 < l.getD (primeWalk target l) 0 ∧ l.getD (primeWalk target l) 0 < target) := by
  intro l
  induction l with
  | nil => intro h; simp at h
  | cons p rest ih =>
      intro hlen
      by_cases hc : p > 0 ∧ p < target
      · have hw : primeWalk target (p :: rest) = primeWalk target rest + 1 := by
          simp [primeWalk, hc]
        rw [hw]
        rw [List.getD_cons_succ]
        rw [hw] at hlen
        exact ih (by simpa using hlen)
      · have hw : primeWalk target (p :: rest) = 0 := by
          simp [primeWalk, hc]
        rw [hw]
        simpa using hc

/-- C5: the size the argumentless `resize()` chooses.  Writing `i` for
the walk's stopping index, `lo = table[i-1]` and `hi = table[i]`:
(walk) every prime strictly before `i` is < n and, unless the table is
exhausted, `hi` is the smallest prime ≥ n; (exhausted) if the walk hits
the -1 sentinel the largest prime is used; (floor) if `hi` is below the
initial size, the initial size is used; (first) if the walk stops at
index 0, `hi` itself is used; (hysteresis) if the current size equals
`lo` or `hi`, the size is kept; (nearest) otherwise whichever of `lo`,
`hi` is closer to n is used; and `resize()` invokes `resize(new_size)`
with the chosen value. -/
theorem C5_resize_size_selection (ht : HashTable) (ni initialSize size : Nat) :
    ht.resizeAuto = ht.resizeTo
      (chooseNewSize ht.getNumInMemoryItems ht.initialSize ht.size) ∧
    (∀ j, j < primeWalk (ni : Int) primeSizeTable →
      primeSizeTable.getD j 0 < (ni : Int)) ∧
    (primeWalk (ni : Int) primeSizeTable < 30 →
      (ni : Int) ≤ primeSizeTable.getD (primeWalk (ni : Int) primeSizeTable) 0) ∧
    (primeWalk (ni : Int) primeSizeTable = 30 →
      chooseNewSize ni initialSize size = 1610612741) ∧
    (primeWalk (ni : Int) primeSizeTable < 30 →
      primeSizeTable.getD (primeWalk (ni : Int) primeSizeTable) 0 < (initialSize : Int) →
      chooseNewSize ni initialSize size = initialSize) ∧
    (primeWalk (ni : Int) primeSizeTable = 0 →
      ¬ primeSizeTable.getD 0 0 < (initialSize : Int) →
      chooseNewSize ni initialSize size = 3) ∧
    (∀ i, i = primeWalk (ni : Int) primeSizeTable → i < 30 → 1 ≤ i →
      ¬ primeSizeTable.getD i 0 < (initialSize : Int) →
      ((size : Int) = primeSizeTable.getD (i - 1) 0 ∨
       (size : Int) = primeSizeTable.getD i 0 →
        chooseNewSize ni initialSize size = size) ∧
      (¬((size : Int) = primeSizeTable.getD (i - 1) 0 ∨
         (size : Int) = primeSizeTable.getD i 0) →
        ((chooseNewSize ni initialSize size = (primeSizeTable.getD (i - 1) 0).toNat ∧
          sizeDistance ni (primeSizeTable.getD (i - 1) 0).toNat ≤
            sizeDistance ni (primeSizeTable.getD i 0).toNat) ∨
         (chooseNewSize ni initialSize size = (primeSizeTable.getD i 0).toNat ∧
          sizeDistance ni (primeSizeTable.getD i 0).toNat ≤
            sizeDistance ni (primeSizeTable.getD (i - 1) 0).toNat)))) := by
  refine ⟨rfl, ?_, ?_, ?_, ?_, ?_, ?_⟩
  · intro j hj
    exact (primeWalk_lt (ni : Int) primeSizeTable j hj).2
  · intro hlt
    have hstop := primeWalk_stop (ni : Int) primeSizeTable
      (by rw [show primeSizeTable.length = 31 from by decide]; omega)
    have hpos := primeTable_pos_le_29 (primeWalk (ni : Int) primeSizeTable) (by omega)
    push_neg at hstop
    have := hstop (by omega)
    omega
  · intro h30
    rw [chooseNewSize, h30]
    have hc1 : primeSizeTable.getD 30 0 = -1 := primeTable_30
    simp only [chooseFromWalk, hc1, if_true]
    decide
  · intro hlt hinit
    have hpos := primeTable_pos_le_29 (primeWalk (ni : Int) primeSizeTable) (by omega)
    have hc1 : ¬ primeSizeTable.getD (primeWalk (ni : Int) primeSizeTable) 0 = -1 := by
      omega
    rw [chooseNewSize]
    simp only [chooseFromWalk, hc1, hinit, if_false, if_true]
  · intro h0 hinit
    rw [chooseNewSize, h0]
    have hc1 : ¬ primeSizeTable.getD 0 0 = -1 := by decide
    simp only [chooseFromWalk, hc1, hinit, if_false, if_true]
    decide
  · intro i hi hlt h1 hinit
    have hpos := primeTable_pos_le_29 i (by omega)
    have hc1 : ¬ primeSizeTable.getD i 0 = -1 := by omega
    have hc3 : ¬ i = 0 := by omega
    constructor
    · intro hcur
      rw [chooseNewSize, ← hi]
      simp only [chooseFromWalk, hc1, hinit, hc3, hcur, if_false, if_true]
    · intro hcur
      rw [chooseNewSize, ← hi]
      simp only [chooseFromWalk, hc1, hinit, hc3, hcur, if_false, nearestSize]
      by_cases c5 : sizeDistance ni (primeSizeTable.getD (i - 1) 0).toNat <
          sizeDistance (primeSizeTable.getD i 0).toNat ni
      · rw [if_pos c5]
        left
        refine ⟨rfl, ?_⟩
        have hcomm : sizeDistance (primeSizeTable.getD i 0).toNat ni =
            sizeDistance ni (primeSizeTable.getD i 0).toNat := by
          simp [sizeDistance, Nat.max_comm, Nat.min_comm]
        omega
      · rw [if_neg c5]
        right
        refine ⟨rfl, ?_⟩
        have hcomm : sizeDistance (primeSizeTable.getD i 0).toNat ni =
            sizeDistance ni (primeSizeTable.getD i 0).toNat := by
          simp [sizeDistance, Nat.max_comm, Nat.min_comm]
        omega

/-- Witness for C5 at n = 100, initial size 3, current size 47: the
bracketing primes are 97 and 193, and 97 is chosen. -/
theorem C5_resize_size_selection_witness :
    (6 : Nat) = primeWalk (100 : Int) primeSizeTable ∧ (6 : Nat) < 30 ∧ 1 ≤ (6 : Nat) ∧
    ¬ primeSizeTable.getD 6 0 < ((3 : Nat) : Int) ∧
    ¬(((47 : Nat) : Int) = primeSizeTable.getD 5 0 ∨
      ((47 : Nat) : Int) = primeSizeTable.getD 6 0) ∧
    ((chooseNewSize 100 3 47 = (primeSizeTable.getD 5 0).toNat ∧
      sizeDistance 100 (primeSizeTable.getD 5 0).toNat ≤
        sizeDistance 100 (primeSizeTable.getD 6 0).toNat) ∨
     (chooseNewSize 100 3 47 = (primeSizeTable.getD 6 0).toNat ∧
      sizeDistance 100 (primeSizeTable.getD 6 0).toNat ≤
        sizeDistance 100 (primeSizeTable.getD 5 0).toNat)) := by
  refine ⟨by decide, by decide, by decide, by decide, by decide, ?_⟩
  have h := (C5_resize_size_selection (HashTable.init 3) 100 3 47).2.2.2.2.2.2
    6 (by decide) (by decide) (by decide) (by decide)
  exact h.2 (by decide)

/-! ## C6: findForRead contract -/

/-- C6: on an active table, with the bucket scan returning committed
position `ci` and pending position `pi`: a `PreparedMaybeVisible`
pending entry is returned as the read-blocked signal (table unchanged);
otherwise the committed entry is returned, except that a deleted
committed entry is returned only under `wants_deleted = Yes` (null
otherwise) and null is returned when no committed entry exists; the
frequency counter is updated (probabilistically, by `generateFreqValue`)
only on a successful read of a non-deleted committed entry with
`track_reference = Yes`. -/
theorem C6_findForRead_contract (ht : HashTable) (k : DocKey) (tr : TrackReference)
    (wd : WantsDeleted) (coin : Bool) (ci pi : Option Nat)
    (hact : ht.activeState = true)
    (hscan : scanChain k (ht.chainAt (ht.getLockedBucket k)) = .ok (ci, pi)) :
    (∀ q pv, pi = some q → (ht.chainAt (ht.getLockedBucket k))[q]? = some pv →
      pv.isPreparedMaybeVisible = true →
      ht.findForRead k tr wd coin = (ht, .ok (some pv))) ∧
    ((pi.bind fun a => Option.map StoredValue.isPreparedMaybeVisible
        (ht.chainAt (ht.getLockedBucket k))[a]?).getD false = false →
      (ci = none → ht.findForRead k tr wd coin = (ht, .ok none)) ∧
      (∀ j sv, ci = some j → (ht.chainAt (ht.getLockedBucket k))[j]? = some sv →
        (sv.isDeleted = true →
          ht.findForRead k tr wd coin =
            (ht, .ok (if wd == WantsDeleted.yes then some sv else none))) ∧
        (sv.isDeleted = false → tr = TrackReference.yes →
          ht.findForRead k tr wd coin =
            (ht.setChain (ht.getLockedBucket k)
              ((ht.chainAt (ht.getLockedBucket k)).set j (updateFreqCounter coin sv)),
             .ok (some (updateFreqCounter coin sv))) ∧
          (updateFreqCounter coin sv).freqCounter =
            generateFreqValue coin sv.freqCounter) ∧
        (sv.isDeleted = false → tr = TrackReference.no →
          ht.findForRead k tr wd coin = (ht, .ok (some sv))))) := by
  have hfi : ht.findInner k = .ok (ht.getLockedBucket k, ci, pi) := by
    simp [HashTable.findInner, hact, hscan]
  constructor
  · intro q pv hq hpv hflag
    have hblock : (pi.bind fun a => Option.map StoredValue.isPreparedMaybeVisible
        (ht.chainAt (ht.getLockedBucket k))[a]?).getD false = true := by
      rw [hq]
      simp [hpv, hflag]
    simp only [HashTable.findForRead, hfi]
    simp [hq, hpv, hflag]
  · intro hnb
    constructor
    · intro hci
      simp only [HashTable.findForRead, hfi]
      simp [hnb, hci]
    · intro j sv hj hsv
      refine ⟨?_, ?_, ?_⟩
      · intro hdel
        simp only [HashTable.findForRead, hfi]
        simp [hnb, hj, hsv, hdel]
      · intro hdel htr
        subst htr
        constructor
        · simp only [HashTable.findForRead, hfi]
          simp [hnb, hj, hsv, hdel]
        · rfl
      · intro hdel htr
        subst htr
        simp only [HashTable.findForRead, hfi]
        simp [hnb, hj, hsv, hdel]

/-- A concrete committed item used by the C6 witness. -/
def sampleItemA : Item :=
  { key := ⟨4, 0⟩
    cas := 1
    revSeqno := 1
    bySeqno := 1
    flags := 0
    exptime := 0
    datatype := 0
    committed := .committedViaMutation
    deleted := false
    deleteSource := .explicitDelete
    valSize := 4
    metaSize := 2
    uncompressedSize := 4 }

/-- The C6 witness table: one committed, non-deleted value for key
(4, 0) in a table of size 3. -/
def sampleTableA : HashTable := ((HashTable.init 3).set sampleItemA true).1

/-- Witness for C6: a tracked read of the non-deleted committed entry
returns it with the frequency counter bumped, updating the chain. -/
theorem C6_findForRead_contract_witness :
    sampleTableA.findForRead ⟨4, 0⟩ TrackReference.yes WantsDeleted.no true =
      (sampleTableA.setChain 1 ((sampleTableA.chainAt 1).set 0
        (updateFreqCounter true (mkStoredValue sampleItemA))),
       .ok (some (updateFreqCounter true (mkStoredValue sampleItemA)))) ∧
    (updateFreqCounter true (mkStoredValue sampleItemA)).freqCounter = 1 := by
  have h := C6_findForRead_contract sampleTableA ⟨4, 0⟩ TrackReference.yes
    WantsDeleted.no true (some 0) none (by decide) (by rfl)
  have h2 := ((h.2 (by decide)).2 0 (mkStoredValue sampleItemA)
    (by decide) (by decide)).2.1 (by decide) rfl
  exact ⟨h2.1, by decide⟩

/-! ## C7: unlocked_updateStoredValue contract -/

/-- C7: with the bucket lock held on an active table and `v` the value
at position `j` of bucket `b`: (1) if `v` is pending, the status is
`IsPendingSyncWrite` and neither the chain nor any statistics change;
(2) if the item is itself pending, a new StoredValue for the prepare is
linked at the head of the bucket chain while the committed entry stays
in place (at position `j+1`); (3) otherwise the value is replaced in
place via `setValue` (which sets the deleted flag from the item, i.e.
clears it if required), the frequency counter is updated
probabilistically, the stats prologue/epilogue runs, and the status is
`WasDirty` exactly when the value was dirty beforehand, `WasClean`
otherwise. -/
theorem C7_update_contract (ht : HashTable) (b j : Nat) (itm : Item) (coin : Bool)
    (v : StoredValue) (hact : ht.activeState = true)
    (hv : (ht.chainAt b)[j]? = some v) (hb : b < ht.values.length) :
    (v.isPending = true → ht.unlocked_updateStoredValue b j itm coin =
      (ht, .ok (.isPendingSyncWrite, none))) ∧
    (v.isPending = false → itm.isPending = true →
      ht.unlocked_updateStoredValue b j itm coin =
        ({ ht.setChain b (mkStoredValue itm :: ht.chainAt b) with
           valueStats := ht.valueStats.epilogue (Statistics.prologue none)
             (some (mkStoredValue itm)) },
         .ok (.wasClean, some (mkStoredValue itm))) ∧
      (ht.unlocked_updateStoredValue b j itm coin).1.chainAt b =
        mkStoredValue itm :: ht.chainAt b ∧
      ((ht.unlocked_updateStoredValue b j itm coin).1.chainAt b)[j + 1]? = some v) ∧
    (v.isPending = false → itm.isPending = false →
      ht.unlocked_updateStoredValue b j itm coin =
        ({ ht.setChain b ((ht.chainAt b).set j
              (updateFreqCounter coin (v.setValue itm))) with
           valueStats := ht.valueStats.epilogue (Statistics.prologue (some v))
             (some (updateFreqCounter coin (v.setValue itm))) },
         .ok ((if v.isDirty then .wasDirty else .wasClean),
              some (updateFreqCounter coin (v.setValue itm)))) ∧
      (updateFreqCounter coin (v.setValue itm)).deleted = itm.deleted ∧
      (updateFreqCounter coin (v.setValue itm)).freqCounter =
        generateFreqValue coin v.freqCounter) := by
  have hpend : v.isPending = true ↔
      (v.committed = .pending ∨ v.committed = .preparedMaybeVisible) := by
    rcases hc : v.committed with _ | _ | _ | _ <;> simp [StoredValue.isPending, hc]
  refine ⟨?_, ?_, ?_⟩
  · intro hp
    rcases hpend.mp hp with hpc | hpc <;>
      simp [HashTable.unlocked_updateStoredValue, hact, hv, hpc]
  · intro hp hip
    have heq : ht.unlocked_updateStoredValue b j itm coin =
        ({ ht.setChain b (mkStoredValue itm :: ht.chainAt b) with
           valueStats := ht.valueStats.epilogue (Statistics.prologue none)
             (some (mkStoredValue itm)) },
         .ok (.wasClean, some (mkStoredValue itm))) := by
      rcases hpc : v.committed with _ | _ | _ | _
      · simp [HashTable.unlocked_updateStoredValue, HashTable.unlocked_addNewStoredValue,
          hact, hv, hpc, hip]
      · simp [HashTable.unlocked_updateStoredValue, HashTable.unlocked_addNewStoredValue,
          hact, hv, hpc, hip]
      · exact absurd (hpend.mpr (Or.inl hpc)) (by simp [hp])
      · exact absurd (hpend.mpr (Or.inr hpc)) (by simp [hp])
    refine ⟨heq, ?_, ?_⟩
    · rw [heq]
      exact chainAt_setChain_self ht b _ hb
    · rw [heq]
      have h2 : ((ht.setChain b (mkStoredValue itm :: ht.chainAt b)).chainAt b) =
          mkStoredValue itm :: ht.chainAt b := chainAt_setChain_self ht b _ hb
      show ((ht.setChain b (mkStoredValue itm :: ht.chainAt b)).chainAt b)[j + 1]? = some v
      rw [h2]
      simpa using hv
  · intro hp hip
    refine ⟨?_, ?_, ?_⟩
    · rcases hpc : v.committed with _ | _ | _ | _
      · simp [HashTable.unlocked_updateStoredValue, hact, hv, hpc, hip]
      · simp [HashTable.unlocked_updateStoredValue, hact, hv, hpc, hip]
      · exact absurd (hpend.mpr (Or.inl hpc)) (by simp [hp])
      · exact absurd (hpend.mpr (Or.inr hpc)) (by simp [hp])
    · simp [updateFreqCounter, StoredValue.setValue]
    · simp [updateFreqCounter, StoredValue.setValue]

/-- Witness for C7 (branch 3): replacing the committed entry of the
sample table in place with a non-pending item. -/
theorem C7_update_contract_witness :
    sampleTableA.unlocked_updateStoredValue 1 0 sampleItemA false =
      ({ sampleTableA.setChain 1 ((sampleTableA.chainAt 1).set 0
            (updateFreqCounter false ((mkStoredValue sampleItemA).setValue
              sampleItemA))) with
         valueStats := sampleTableA.valueStats.epilogue
           (Statistics.prologue (some (mkStoredValue sampleItemA)))
           (some (updateFreqCounter false ((mkStoredValue sampleItemA).setValue
             sampleItemA))) },
       .ok ((if (mkStoredValue sampleItemA).isDirty then .wasDirty else .wasClean),
            some (updateFreqCounter false ((mkStoredValue sampleItemA).setValue
              sampleItemA)))) ∧
    (updateFreqCounter false ((mkStoredValue sampleItemA).setValue
      sampleItemA)).deleted = sampleItemA.deleted := by
  have h := (C7_update_contract sampleTableA 1 0 sampleItemA false
    (mkStoredValue sampleItemA) (by decide) (by decide) (by decide)).2.2
    (by decide) (by decide)
  exact ⟨h.1, h.2.1⟩

/-! ## C8 / C10: insertFromWarmup -/

/-- A committed item with CAS 0 and flags 1 (key (6, 0)). -/
def sampleItemB : Item :=
  { key := ⟨6, 0⟩
    cas := 0
    revSeqno := 1
    bySeqno := 1
    flags := 1
    exptime := 0
    datatype := 0
    committed := .committedViaMutation
    deleted := false
    deleteSource := .explicitDelete
    valSize := 4
    metaSize := 2
    uncompressedSize := 4 }

/-- The same key with CAS 0 but different flags, expiry and rev_seqno. -/
def sampleItemB2 : Item :=
  { key := ⟨6, 0⟩
    cas := 0
    revSeqno := 9
    bySeqno := 1
    flags := 2
    exptime := 5
    datatype := 0
    committed := .committedViaMutation
    deleted := false
    deleteSource := .explicitDelete
    valSize := 4
    metaSize := 2
    uncompressedSize := 4 }

/-- A table of size 3 holding the CAS-0 entry for key (6, 0). -/
def sampleTableB : HashTable := ((HashTable.init 3).set sampleItemB true).1

/-- Counterexample to C8 as stated: the existing entry's CAS is zero,
yet `insertFromWarmup` does **not** fill the entry's flags (or expiry,
or rev_seqno) in from the item — the source only fills them when the
existing CAS is zero **and differs** from the item's CAS (and never
when `keyMetaDataOnly` is set).  Here both CASes are 0, so they are
equal and the fill is skipped: the entry keeps flags 1 instead of
taking the item's flags 2. -/
theorem C8_counterexample :
    (mkStoredValue sampleItemB).cas = 0 ∧
    sampleItemB2.flags = 2 ∧
    ((sampleTableB.insertFromWarmup sampleItemB2 false false
        EvictionPolicy.value).1.chainAt
      (sampleTableB.getLockedBucket sampleItemB2.key))[0]? =
      some (mkStoredValue sampleItemB).markClean ∧
    (mkStoredValue sampleItemB).markClean.flags ≠ sampleItemB2.flags ∧
    (sampleTableB.insertFromWarmup sampleItemB2 false false
        EvictionPolicy.value).2 = .ok .notFound := by
  decide

/-- C10: if `insertFromWarmup` is called with `keyMetaDataOnly = true`
and a matching entry (committed or pending, following the item's
committed flag) already exists, it returns `InvalidCas` immediately,
leaving the table — entry, chain and statistics — untouched, without
comparing CAS values (the witness exercises this with equal CASes). -/
theorem C10_warmup_metaOnly_existing (ht : HashTable) (itm : Item) (eject : Bool)
    (policy : EvictionPolicy) (ci pi : Option Nat) (j : Nat)
    (hact : ht.activeState = true)
    (hscan : scanChain itm.key (ht.chainAt (ht.getLockedBucket itm.key)) = .ok (ci, pi))
    (hj : (if itm.isCommitted then ci else pi) = some j) :
    ht.insertFromWarmup itm eject true policy = (ht, .ok .invalidCas) := by
  have hfi : ht.findInner itm.key = .ok (ht.getLockedBucket itm.key, ci, pi) := by
    simp [HashTable.findInner, hact, hscan]
  simp [HashTable.insertFromWarmup, hfi, hj]

/-- Witness for C10: the existing entry and the item carry the *same*
CAS, yet `InvalidCas` is returned (no CAS comparison happens). -/
theorem C10_warmup_metaOnly_existing_witness :
    (mkStoredValue sampleItemB).cas = sampleItemB.cas ∧
    sampleTableB.insertFromWarmup sampleItemB true true EvictionPolicy.value =
      (sampleTableB, .ok .invalidCas) :=
  ⟨by decide,
   C10_warmup_metaOnly_existing sampleTableB sampleItemB true EvictionPolicy.value
     (some 0) none 0 (by decide) (by rfl) (by decide)⟩

theorem warmupTail_noEject (ht : HashTable) (b j : Nat) (v : StoredValue)
    (eject keyMetaDataOnly : Bool) (policy : EvictionPolicy)
    (hv : (ht.chainAt b)[j]? = some v) (hej : (eject && !keyMetaDataOnly) = false) :
    ht.insertFromWarmupTail b j eject keyMetaDataOnly policy =
      (ht.setChain b ((ht.chainAt b).set j v.markClean), .ok .notFound) := by
  simp [HashTable.insertFromWarmupTail, hv, hej]

theorem warmupTail_noEject_entry (ht : HashTable) (b j : Nat) (v : StoredValue)
    (eject keyMetaDataOnly : Bool) (policy : EvictionPolicy)
    (hv : (ht.chainAt b)[j]? = some v) (hej : (eject && !keyMetaDataOnly) = false)
    (hb : b < ht.values.length) :
    ((ht.insertFromWarmupTail b j eject keyMetaDataOnly policy).1.chainAt b)[j]? =
      some v.markClean ∧
    (ht.insertFromWarmupTail b j eject keyMetaDataOnly policy).2 = .ok .notFound := by
  rw [warmupTail_noEject ht b j v eject keyMetaDataOnly policy hv hej]
  refine ⟨?_, rfl⟩
  rw [chainAt_setChain_self ht b _ hb]
  have hj : j < (ht.chainAt b).length := (List.getElem?_eq_some.1 hv).1
  simp [List.getElem?_set_self, hj]

theorem ejectItem_value_counters (ht : HashTable) (sv : StoredValue) :
    (ht.unlocked_ejectItem sv EvictionPolicy.value).1.numEjects +
      (ht.unlocked_ejectItem sv EvictionPolicy.value).1.numFailedEjects =
      ht.numEjects + ht.numFailedEjects + 1 ∧
    ∃ bres, (ht.unlocked_ejectItem sv EvictionPolicy.value).2 = .ok bres := by
  by_cases hel : sv.eligibleForEviction EvictionPolicy.value
  · constructor
    · simp [HashTable.unlocked_ejectItem, hel, HashTable.setChain]
      omega
    · exact ⟨true, by simp [HashTable.unlocked_ejectItem, hel]⟩
  · constructor
    · simp [HashTable.unlocked_ejectItem, hel]
      omega
    · exact ⟨false, by simp [HashTable.unlocked_ejectItem, hel]⟩

theorem warmupTail_eject_value (ht : HashTable) (b j : Nat) (v : StoredValue)
    (hv : (ht.chainAt b)[j]? = some v) :
    (ht.insertFromWarmupTail b j true false EvictionPolicy.value).1.numEjects +
      (ht.insertFromWarmupTail b j true false EvictionPolicy.value).1.numFailedEjects =
      ht.numEjects + ht.numFailedEjects + 1 ∧
    (ht.insertFromWarmupTail b j true false EvictionPolicy.value).2 = .ok .notFound := by
  have heq : ht.insertFromWarmupTail b j true false EvictionPolicy.value =
      (((ht.setChain b ((ht.chainAt b).set j
          v.markClean)).unlocked_ejectItem v.markClean EvictionPolicy.value).1,
       ((ht.setChain b ((ht.chainAt b).set j
          v.markClean)).unlocked_ejectItem v.markClean
            EvictionPolicy.value).2.map fun _ => .notFound) := by
    simp [HashTable.insertFromWarmupTail, hv]
  rw [heq]
  obtain ⟨hcnt, bres, hres⟩ :=
    ejectItem_value_counters (ht.setChain b ((ht.chainAt b).set j v.markClean)) v.markClean
  constructor
  · simpa [HashTable.setChain] using hcnt
  · rw [hres]
    rfl

theorem warmupExisting_resident (ht : HashTable) (b j : Nat) (itm : Item)
    (eject : Bool) (policy : EvictionPolicy) (v : StoredValue)
    (hv : (ht.chainAt b)[j]? = some v) (hres : v.resident = true) :
    ht.insertFromWarmupExisting b j itm eject policy =
      ht.insertFromWarmupTail b j eject false policy := by
  simp [HashTable.insertFromWarmupExisting, hv, StoredValue.isResident, hres]

theorem warmupExisting_nonResident (ht : HashTable) (b j : Nat) (itm : Item)
    (eject : Bool) (policy : EvictionPolicy) (v : StoredValue)
    (hact : ht.activeState = true)
    (hv : (ht.chainAt b)[j]? = some v) (hres : v.resident = false) :
    ht.insertFromWarmupExisting b j itm eject policy =
      ({ ht.setChain b ((ht.chainAt b).set j
          ((if v.isTempItem then { v with newCacheItem := false } else v).restoreValue
            itm)) with
         valueStats := ht.valueStats.epilogue (Statistics.prologue (some v))
           (some ((if v.isTempItem then { v with newCacheItem := false }
              else v).restoreValue itm)) }).insertFromWarmupTail b j eject false
        policy := by
  have hrv : ht.unlocked_restoreValue b j itm =
      ({ ht.setChain b ((ht.chainAt b).set j
          ((if v.isTempItem then { v with newCacheItem := false } else v).restoreValue
            itm)) with
         valueStats := ht.valueStats.epilogue (Statistics.prologue (some v))
           (some ((if v.isTempItem then { v with newCacheItem := false }
              else v).restoreValue itm)) }, true) := by
    simp [HashTable.unlocked_restoreValue, hv, hact, StoredValue.isResident, hres]
  simp [HashTable.insertFromWarmupExisting, hv, StoredValue.isResident, hres, hrv]

theorem setHead_eq (ht : HashTable) (b : Nat) (w : StoredValue)
    (hw : (ht.chainAt b)[0]? = some w) (hb : b < ht.values.length) :
    ht.setHeadNewCacheItem b =
      ht.setChain b ((ht.chainAt b).set 0 { w with newCacheItem := false }) ∧
    ((ht.setHeadNewCacheItem b).chainAt b)[0]? =
      some { w with newCacheItem := false } := by
  have heq : ht.setHeadNewCacheItem b =
      ht.setChain b ((ht.chainAt b).set 0 { w with newCacheItem := false }) := by
    simp [HashTable.setHeadNewCacheItem, hw]
  refine ⟨heq, ?_⟩
  rw [heq, chainAt_setChain_self ht b _ hb]
  have h0 : 0 < (ht.chainAt b).length := (List.getElem?_eq_some.1 hw).1
  simp [List.getElem?_set_self, h0]

theorem warmupNew_noEject (ht : HashTable) (b : Nat) (v : StoredValue)
    (eject keyMetaDataOnly : Bool) (policy : EvictionPolicy)
    (hv : (ht.chainAt b)[0]? = some v) (hb : b < ht.values.length)
    (hej : (eject && !keyMetaDataOnly) = false) :
    ((ht.insertFromWarmupNew b v eject keyMetaDataOnly policy).1.chainAt b)[0]? =
      some ((if keyMetaDataOnly then { v.markNotResident with newCacheItem := false }
             else { v with newCacheItem := false }).markClean) ∧
    (ht.insertFromWarmupNew b v eject keyMetaDataOnly policy).2 = .ok .notFound := by
  by_cases hmo : keyMetaDataOnly
  · have hstep : ({ ht.setChain b ((ht.chainAt b).set 0 v.markNotResident) with
        valueStats := ht.valueStats.epilogue (Statistics.prologue (some v))
          (some v.markNotResident) } : HashTable).chainAt b =
        (ht.chainAt b).set 0 v.markNotResident := chainAt_setChain_self ht b _ hb
    have h0 : 0 < (ht.chainAt b).length := (List.getElem?_eq_some.1 hv).1
    have hfetch : (({ ht.setChain b ((ht.chainAt b).set 0 v.markNotResident) with
        valueStats := ht.valueStats.epilogue (Statistics.prologue (some v))
          (some v.markNotResident) } : HashTable).chainAt b)[0]? =
        some v.markNotResident := by
      rw [hstep]
      simp [List.getElem?_set_self, h0]
    have hblen : b < ({ ht.setChain b ((ht.chainAt b).set 0 v.markNotResident) with
        valueStats := ht.valueStats.epilogue (Statistics.prologue (some v))
          (some v.markNotResident) } : HashTable).values.length := by
      simpa [HashTable.setChain] using hb
    obtain ⟨hhead_eq, hhead⟩ := setHead_eq _ b v.markNotResident hfetch hblen
    have hblen2 : b < (({ ht.setChain b ((ht.chainAt b).set 0 v.markNotResident) with
        valueStats := ht.valueStats.epilogue (Statistics.prologue (some v))
          (some v.markNotResident) } : HashTable).setHeadNewCacheItem
            b).values.length := by
      rw [hhead_eq]
      simpa [HashTable.setChain] using hb
    obtain ⟨htail1, htail2⟩ := warmupTail_noEject_entry _ b 0
      { v.markNotResident with newCacheItem := false } eject keyMetaDataOnly policy
      hhead hej hblen2
    have heq : ht.insertFromWarmupNew b v eject keyMetaDataOnly policy =
        (({ ht.setChain b ((ht.chainAt b).set 0 v.markNotResident) with
            valueStats := ht.valueStats.epilogue (Statistics.prologue (some v))
              (some v.markNotResident) } : HashTable).setHeadNewCacheItem
                b).insertFromWarmupTail b 0 eject keyMetaDataOnly policy := by
      simp [HashTable.insertFromWarmupNew, hmo]
    rw [heq]
    rw [if_pos hmo]
    exact ⟨htail1, htail2⟩
  · obtain ⟨hhead_eq, hhead⟩ := setHead_eq ht b v hv hb
    have hblen2 : b < (ht.setHeadNewCacheItem b).values.length := by
      rw [hhead_eq]
      simpa [HashTable.setChain] using hb
    obtain ⟨htail1, htail2⟩ := warmupTail_noEject_entry _ b 0
      { v with newCacheItem := false } eject keyMetaDataOnly policy hhead hej hblen2
    have heq : ht.insertFromWarmupNew b v eject keyMetaDataOnly policy =
        (ht.setHeadNewCacheItem b).insertFromWarmupTail b 0 eject
          keyMetaDataOnly policy := by
      simp [HashTable.insertFromWarmupNew, hmo]
    rw [heq]
    rw [if_neg hmo]
    exact ⟨htail1, htail2⟩

/-- C8 (amended): `insertFromWarmup` contract.  Writing `b` for the
locked bucket and "chosen" for the committed or pending scan position
(following the item's committed flag):
(1) if no matching entry exists and no eviction follows
(`eject && !meta_only` false), a new entry is inserted at the head of
`b` — non-resident exactly when `meta_only` is set — marked clean, and
the call returns `NotFound`;
(2) if a matching entry exists and its CAS is non-zero and differs from
the item's CAS, the call returns `InvalidCas` leaving the table
unchanged;
(3) if `meta_only` is unset and the existing entry's CAS is zero *and
differs from the item's CAS* (the amendment: the source skips the fill
when the CASes are equal, and never fills when `meta_only` is set), the
entry's CAS/flags/expiry/rev_seqno are filled in from the item, the
entry is marked clean and `NotFound` is returned;
(4) if the CASes are equal and the entry is resident, the entry is
marked clean and `NotFound` is returned;
(5) if the CASes are equal and the entry is non-resident, its value is
restored from the item, the entry is marked clean and `NotFound` is
returned;
(6) when `eject` is set (and not `meta_only`), `unlocked_ejectItem`
runs on the successful path: exactly one of num_ejects /
num_failed_ejects increments, and `NotFound` is returned. -/
theorem C8_insertFromWarmup_amended (ht : HashTable) (itm : Item)
    (eject keyMetaDataOnly : Bool) (policy : EvictionPolicy) (ci pi : Option Nat)
    (hact : ht.activeState = true)
    (hscan : scanChain itm.key (ht.chainAt (ht.getLockedBucket itm.key)) = .ok (ci, pi))
    (hlen : ht.getLockedBucket itm.key < ht.values.length) :
    ((if itm.isCommitted then ci else pi) = none → (eject && !keyMetaDataOnly) = false →
      (((ht.insertFromWarmup itm eject keyMetaDataOnly policy).1.chainAt
          (ht.getLockedBucket itm.key))[0]? =
        some ((if keyMetaDataOnly
               then { (mkStoredValue itm).markNotResident with newCacheItem := false }
               else { mkStoredValue itm with newCacheItem := false }).markClean) ∧
       ((if keyMetaDataOnly
         then { (mkStoredValue itm).markNotResident with newCacheItem := false }
         else { mkStoredValue itm with newCacheItem := false }).markClean).resident =
          !keyMetaDataOnly ∧
       ((if keyMetaDataOnly
         then { (mkStoredValue itm).markNotResident with newCacheItem := false }
         else { mkStoredValue itm with newCacheItem := false }).markClean).dirty = false ∧
       (ht.insertFromWarmup itm eject keyMetaDataOnly policy).2 = .ok .notFound)) ∧
    (∀ j v, (if itm.isCommitted then ci else pi) = some j →
      (ht.chainAt (ht.getLockedBucket itm.key))[j]? = some v →
      v.cas ≠ 0 → v.cas ≠ itm.cas →
      ht.insertFromWarmup itm eject keyMetaDataOnly policy = (ht, .ok .invalidCas)) ∧
    (∀ j v, (if itm.isCommitted then ci else pi) = some j →
      (ht.chainAt (ht.getLockedBucket itm.key))[j]? = some v →
      keyMetaDataOnly = false → eject = false → v.cas = 0 → itm.cas ≠ 0 →
      v.resident = true →
      (((ht.insertFromWarmup itm eject keyMetaDataOnly policy).1.chainAt
          (ht.getLockedBucket itm.key))[j]? = some ((v.fillFromItem itm).markClean) ∧
       (ht.insertFromWarmup itm eject keyMetaDataOnly policy).2 = .ok .notFound)) ∧
    (∀ j v, (if itm.isCommitted then ci else pi) = some j →
      (ht.chainAt (ht.getLockedBucket itm.key))[j]? = some v →
      keyMetaDataOnly = false → eject = false → v.cas = itm.cas →
      v.resident = true →
      (((ht.insertFromWarmup itm eject keyMetaDataOnly policy).1.chainAt
          (ht.getLockedBucket itm.key))[j]? = some v.markClean ∧
       (ht.insertFromWarmup itm eject keyMetaDataOnly policy).2 = .ok .notFound)) ∧
    (∀ j v, (if itm.isCommitted then ci else pi) = some j →
      (ht.chainAt (ht.getLockedBucket itm.key))[j]? = some v →
      keyMetaDataOnly = false → eject = false → v.cas = itm.cas →
      v.resident = false →
      (((ht.insertFromWarmup itm eject keyMetaDataOnly policy).1.chainAt
          (ht.getLockedBucket itm.key))[j]? =
        some (((if v.isTempItem then { v with newCacheItem := false } else v).restoreValue
          itm).markClean) ∧
       (ht.insertFromWarmup itm eject keyMetaDataOnly policy).2 = .ok .notFound)) ∧
    (∀ j v, (if itm.isCommitted then ci else pi) = some j →
      (ht.chainAt (ht.getLockedBucket itm.key))[j]? = some v →
      keyMetaDataOnly = false → eject = true → v.cas = itm.cas →
      v.resident = true → policy = EvictionPolicy.value →
      ((ht.insertFromWarmup itm eject keyMetaDataOnly policy).1.numEjects +
        (ht.insertFromWarmup itm eject keyMetaDataOnly policy).1.numFailedEjects =
        ht.numEjects + ht.numFailedEjects + 1 ∧
       (ht.insertFromWarmup itm eject keyMetaDataOnly policy).2 = .ok .notFound)) := by
  have hfi : ht.findInner itm.key = .ok (ht.getLockedBucket itm.key, ci, pi) := by
    simp [HashTable.findInner, hact, hscan]
  refine ⟨?_, ?_, ?_, ?_, ?_, ?_⟩
  · -- (1) new entry
    intro hch hej
    rcases hr : ht.unlocked_addNewStoredValue (ht.getLockedBucket itm.key) itm
      with ⟨ht1, r1⟩
    rcases r1 with e1 | v
    · exfalso
      simp [HashTable.unlocked_addNewStoredValue, hact] at hr
    · obtain ⟨hveq, hhead⟩ := addNew_head hr hlen
      subst hveq
      have heq : ht.insertFromWarmup itm eject keyMetaDataOnly policy =
          ht1.insertFromWarmupNew (ht.getLockedBucket itm.key) (mkStoredValue itm)
            eject keyMetaDataOnly policy := by
        simp [HashTable.insertFromWarmup, hfi, hch, hr]
      have hlen1 : ht.getLockedBucket itm.key < ht1.values.length := by
        have : ht1 = (ht.unlocked_addNewStoredValue (ht.getLockedBucket itm.key) itm).1 := by
          rw [hr]
        rw [this]
        simp only [HashTable.unlocked_addNewStoredValue, hact]
        simpa [HashTable.setChain] using hlen
      obtain ⟨hh, hs⟩ := warmupNew_noEject ht1 (ht.getLockedBucket itm.key)
        (mkStoredValue itm) eject keyMetaDataOnly policy hhead hlen1 hej
      rw [heq]
      refine ⟨hh, ?_, ?_, hs⟩
      · cases keyMetaDataOnly <;>
          simp [StoredValue.markClean, StoredValue.markNotResident, mkStoredValue]
      · cases keyMetaDataOnly <;>
          simp [StoredValue.markClean, StoredValue.markNotResident, mkStoredValue]
  · -- (2) CAS mismatch, non-zero
    intro j v hch hv hnz hne
    by_cases hmo : keyMetaDataOnly
    · subst hmo
      exact C10_warmup_metaOnly_existing ht itm eject policy ci pi j hact hscan hch
    · have hmof : keyMetaDataOnly = false := by simpa using hmo
      subst hmof
      simp [HashTable.insertFromWarmup, hfi, hch, hv, hnz, hne]
  · -- (3) CAS zero and different: fill from item
    intro j v hch hv hmo hej hz hnz hres
    subst hmo; subst hej
    have hne2 : v.cas ≠ itm.cas := by omega
    have heq : ht.insertFromWarmup itm false false policy =
        (ht.setChain (ht.getLockedBucket itm.key)
          ((ht.chainAt (ht.getLockedBucket itm.key)).set j
            (v.fillFromItem itm))).insertFromWarmupExisting
          (ht.getLockedBucket itm.key) j itm false policy := by
      have hzne : ¬((0 : Nat) = itm.cas) := by omega
      simp [HashTable.insertFromWarmup, hfi, hch, hv, hne2, hz, hzne]
    rw [heq]
    have hj : j < (ht.chainAt (ht.getLockedBucket itm.key)).length :=
      (List.getElem?_eq_some.1 hv).1
    have hv2 : ((ht.setChain (ht.getLockedBucket itm.key)
        ((ht.chainAt (ht.getLockedBucket itm.key)).set j
          (v.fillFromItem itm))).chainAt (ht.getLockedBucket itm.key))[j]? =
        some (v.fillFromItem itm) := by
      rw [chainAt_setChain_self ht _ _ hlen]
      simp [List.getElem?_set_self, hj]
    have hres2 : (v.fillFromItem itm).resident = true := hres
    rw [warmupExisting_resident _ _ j itm false policy _ hv2 hres2]
    have hlen2 : ht.getLockedBucket itm.key <
        (ht.setChain (ht.getLockedBucket itm.key)
          ((ht.chainAt (ht.getLockedBucket itm.key)).set j
            (v.fillFromItem itm))).values.length := by
      simpa [HashTable.setChain] using hlen
    exact warmupTail_noEject_entry _ _ j (v.fillFromItem itm) false false policy
      hv2 (by decide) hlen2
  · -- (4) equal CAS, resident
    intro j v hch hv hmo hej hcas hres
    subst hmo; subst hej
    have heq : ht.insertFromWarmup itm false false policy =
        ht.insertFromWarmupExisting (ht.getLockedBucket itm.key) j itm false policy := by
      simp [HashTable.insertFromWarmup, hfi, hch, hv, hcas]
    rw [heq, warmupExisting_resident _ _ j itm false policy _ hv hres]
    exact warmupTail_noEject_entry _ _ j v false false policy hv (by decide) hlen
  · -- (5) equal CAS, non-resident: restore
    intro j v hch hv hmo hej hcas hres
    subst hmo; subst hej
    have heq : ht.insertFromWarmup itm false false policy =
        ht.insertFromWarmupExisting (ht.getLockedBucket itm.key) j itm false policy := by
      simp [HashTable.insertFromWarmup, hfi, hch, hv, hcas]
    rw [heq, warmupExisting_nonResident _ _ j itm false policy _ hact hv hres]
    have hj : j < (ht.chainAt (ht.getLockedBucket itm.key)).length :=
      (List.getElem?_eq_some.1 hv).1
    have hv2 : (({ ht.setChain (ht.getLockedBucket itm.key)
        ((ht.chainAt (ht.getLockedBucket itm.key)).set j
          ((if v.isTempItem then { v with newCacheItem := false } else v).restoreValue
            itm)) with
        valueStats := ht.valueStats.epilogue (Statistics.prologue (some v))
          (some ((if v.isTempItem then { v with newCacheItem := false }
             else v).restoreValue itm)) } : HashTable).chainAt
        (ht.getLockedBucket itm.key))[j]? =
        some ((if v.isTempItem then { v with newCacheItem := false }
          else v).restoreValue itm) := by
      show ((ht.setChain (ht.getLockedBucket itm.key)
        ((ht.chainAt (ht.getLockedBucket itm.key)).set j
          ((if v.isTempItem then { v with newCacheItem := false } else v).restoreValue
            itm))).chainAt (ht.getLockedBucket itm.key))[j]? = _
      rw [chainAt_setChain_self ht _ _ hlen]
      simp [List.getElem?_set_self, hj]
    have hlen2 : ht.getLockedBucket itm.key <
        ({ ht.setChain (ht.getLockedBucket itm.key)
          ((ht.chainAt (ht.getLockedBucket itm.key)).set j
            ((if v.isTempItem then { v with newCacheItem := false } else v).restoreValue
              itm)) with
          valueStats := ht.valueStats.epilogue (Statistics.prologue (some v))
            (some ((if v.isTempItem then { v with newCacheItem := false }
               else v).restoreValue itm)) } : HashTable).values.length := by
      simpa [HashTable.setChain] using hlen
    exact warmupTail_noEject_entry _ _ j _ false false policy hv2 (by decide) hlen2
  · -- (6) the eviction call runs on the successful path
    intro j v hch hv hmo hej hcas hres hpol
    subst hmo; subst hej; subst hpol
    have heq : ht.insertFromWarmup itm true false EvictionPolicy.value =
        ht.insertFromWarmupExisting (ht.getLockedBucket itm.key) j itm true
          EvictionPolicy.value := by
      simp [HashTable.insertFromWarmup, hfi, hch, hv, hcas]
    rw [heq, warmupExisting_resident _ _ j itm true EvictionPolicy.value _ hv hres]
    exact warmupTail_eject_value ht _ j v hv

/-- The same key with a non-zero CAS differing from the entry's CAS 0. -/
def sampleItemB3 : Item :=
  { key := ⟨6, 0⟩
    cas := 5
    revSeqno := 9
    bySeqno := 1
    flags := 2
    exptime := 7
    datatype := 0
    committed := .committedViaMutation
    deleted := false
    deleteSource := .explicitDelete
    valSize := 4
    metaSize := 2
    uncompressedSize := 4 }

/-- Witness for C8 (amended), clause (3): the existing entry has CAS 0
differing from the item's CAS 5, so CAS/flags/expiry/rev_seqno are
filled in from the item, the entry is marked clean and `NotFound` is
returned. -/
theorem C8_insertFromWarmup_amended_witness :
    ((sampleTableB.insertFromWarmup sampleItemB3 false false
        EvictionPolicy.value).1.chainAt
      (sampleTableB.getLockedBucket sampleItemB3.key))[0]? =
      some (((mkStoredValue sampleItemB).fillFromItem sampleItemB3).markClean) ∧
    (sampleTableB.insertFromWarmup sampleItemB3 false false
        EvictionPolicy.value).2 = .ok .notFound ∧
    (((mkStoredValue sampleItemB).fillFromItem sampleItemB3).markClean).flags = 2 ∧
    (((mkStoredValue sampleItemB).fillFromItem sampleItemB3).markClean).cas = 5 := by
  have h := (C8_insertFromWarmup_amended sampleTableB sampleItemB3 false false
    EvictionPolicy.value (some 0) none (by decide) (by rfl) (by decide)).2.2.1
    0 (mkStoredValue sampleItemB) (by decide) (by decide) rfl rfl (by decide)
    (by decide) (by decide)
  exact ⟨h.1, h.2, by decide, by decide⟩

/-! ## C9: inactive fail-fast -/

/-- The sample table with its active-state flag cleared. -/
def sampleTableInactive : HashTable := { sampleTableA with activeState := false }

/-- Counterexample to C9 as stated: `unlocked_softDelete` performs no
active-state check in the source (hash_table.cc lines 543-568).  On an
inactive table holding a committed entry it raises no error — it
returns `Success` — and it modifies the table: the entry's deleted flag
flips from false to true.  (`unlocked_ejectItem`, lines 956-997,
likewise has no active-state check.) -/
theorem C9_counterexample :
    sampleTableInactive.activeState = false ∧
    (sampleTableInactive.unlocked_softDelete 1 0 true
        DeleteSource.explicitDelete).2 =
      .ok (.success,
        some ((mkStoredValue sampleItemA).markDeleted DeleteSource.explicitDelete)) ∧
    ((sampleTableInactive.chainAt 1)[0]?.map StoredValue.isDeleted = some false) ∧
    (((sampleTableInactive.unlocked_softDelete 1 0 true
        DeleteSource.explicitDelete).1.chainAt 1)[0]?.map StoredValue.isDeleted =
      some true) := by
  decide

/-- C9 (amended): when the active-state flag is false, the read and
write APIs that do check it — `findInner` and the `find_for_*`
operations, `set`, `unlocked_updateStoredValue`,
`unlocked_addNewStoredValue`, `unlocked_release`/`unlocked_del`,
`resize` and `insertFromWarmup` — fail fast by raising a logic error
(`std::invalid_argument`, thrown by `unlocked_addNewStoredValue`, is a
subclass of `std::logic_error`) and leave the table unmodified.
`unlocked_softDelete` and `unlocked_ejectItem` perform no active-state
check (see the counterexample). -/
theorem C9_inactive_failfast_amended (ht : HashTable)
    (hinact : ht.activeState = false) :
    (∀ k, ht.findInner k = .error .logicError) ∧
    (∀ k tr wd coin, ht.findForRead k tr wd coin = (ht, .error .logicError)) ∧
    (∀ k wd, ht.findForWrite k wd = .error .logicError) ∧
    (∀ itm coin, ht.set itm coin = (ht, .error .logicError)) ∧
    (∀ b j itm coin, ht.unlocked_updateStoredValue b j itm coin =
      (ht, .error .logicError)) ∧
    (∀ b itm, ht.unlocked_addNewStoredValue b itm = (ht, .error .invalidArgument) ∧
      HTError.isLogicError .invalidArgument = true) ∧
    (∀ b k, ht.unlocked_release b k = (ht, .error .logicError)) ∧
    (∀ b k, ht.unlocked_del b k = (ht, .error .logicError)) ∧
    (∀ ns, ht.resizeTo ns = (ht, .error .logicError)) ∧
    (∀ itm e m p, ht.insertFromWarmup itm e m p = (ht, .error .logicError)) := by
  have hact : ¬ ht.activeState = true := by simp [hinact]
  have hfi : ∀ k, ht.findInner k = .error .logicError := by
    intro k
    simp [HashTable.findInner, hact]
  refine ⟨hfi, ?_, ?_, ?_, ?_, ?_, ?_, ?_, ?_, ?_⟩
  · intro k tr wd coin
    simp [HashTable.findForRead, hfi k]
  · intro k wd
    simp [HashTable.findForWrite, hfi k]
  · intro itm coin
    have hfw : ht.findForWrite itm.key WantsDeleted.yes = .error .logicError := by
      simp [HashTable.findForWrite, hfi itm.key]
    simp [HashTable.set, hfw]
  · intro b j itm coin
    simp [HashTable.unlocked_updateStoredValue, hact]
  · intro b itm
    exact ⟨by simp [HashTable.unlocked_addNewStoredValue, hact], rfl⟩
  · intro b k
    simp [HashTable.unlocked_release, hact]
  · intro b k
    simp [HashTable.unlocked_del, HashTable.unlocked_release, hact, Except.map]
  · intro ns
    simp [HashTable.resizeTo, hact]
  · intro itm e m p
    simp [HashTable.insertFromWarmup, hfi itm.key]

/-- Witness for C9 (amended) on the concrete inactive table. -/
theorem C9_inactive_failfast_amended_witness :
    sampleTableInactive.findInner ⟨4, 0⟩ = .error .logicError ∧
    sampleTableInactive.set sampleItemA true =
      (sampleTableInactive, .error .logicError) ∧
    sampleTableInactive.resizeTo 7 = (sampleTableInactive, .error .logicError) := by
  have h := C9_inactive_failfast_amended sampleTableInactive (by decide)
  exact ⟨h.1 ⟨4, 0⟩, h.2.2.2.1 sampleItemA true, h.2.2.2.2.2.2.2.2.1 7⟩

end KV
